import Mathlib

/-!
Shallow embedding, in Lean 4, of the clox-rs bytecode compiler and virtual
machine (src/chunk.rs, src/compiler.rs, src/scanner.rs, src/string.rs,
src/token.rs, src/value.rs, src/vm.rs), together with theorems settling the
frozen specification claims.

Modelling conventions:
* Rust `f64` is modelled by `Clox.F64`: NaN, the two infinities, and finite
  values represented exactly as integer fractions (numerator, positive
  denominator).  IEEE-754 rounding is not modelled (arithmetic is exact);
  none of the proven claims depends on rounding.  NaN propagation, the
  partiality of `partial_cmp` on NaN, and `NaN != NaN` are modelled, since
  claims about comparison and equality depend on them.
* `Rc<String>` pointer identity is modelled by an allocation id (`allocId`)
  handed out by a counter carried in the interning table.
* Rust functions that can panic (index out of range, `unwrap` on `None`,
  `usize` underflow) are modelled with `Option`: `none` is a panic (or fuel
  exhaustion for the fueled loops).  A panic is distinct from a Lox runtime
  error, which the interpreter reports as a `failure` result.
* Loops and recursion in the source are modelled with an explicit fuel
  argument so that every definition is executable by kernel reduction.
* The repository mixes file revisions: `chunk.rs`'s `OpCode` enum ends at
  `Jump = 22` while `vm.rs` and `debug.rs` both dispatch on a `Loop` opcode,
  which the spec's canonical opcode order places after `Jump`.  The model
  includes `Loop = 23`; the compiler never emits it.
-/

namespace Clox

/-- Finite `f64` values, modelled as exact fractions `num / den` with `den > 0`
maintained by all constructors and operations below. -/
structure Frac where
  num : ℤ
  den : ℤ
  deriving DecidableEq, Repr

/-- Integer comparison as a three-way `Ordering`. -/
def cmpInt (a b : ℤ) : Ordering :=
  if a < b then .lt else if a = b then .eq else .gt

namespace Frac

/-- The fraction `n / 1`. -/
def ofInt (n : ℤ) : Frac := ⟨n, 1⟩

/-- Exact addition of fractions. -/
def add (a b : Frac) : Frac := ⟨a.num * b.den + b.num * a.den, a.den * b.den⟩

/-- Exact subtraction of fractions. -/
def sub (a b : Frac) : Frac := ⟨a.num * b.den - b.num * a.den, a.den * b.den⟩

/-- Exact multiplication of fractions. -/
def mul (a b : Frac) : Frac := ⟨a.num * b.num, a.den * b.den⟩

/-- Negation of a fraction. -/
def neg (a : Frac) : Frac := ⟨-a.num, a.den⟩

/-- Whether the fraction is zero. -/
def isZero (a : Frac) : Bool := a.num = 0

/-- Whether the fraction is strictly positive. -/
def isPos (a : Frac) : Bool := 0 < a.num

/-- Exact division; the caller guarantees `b.num ≠ 0`.  The result's
denominator is kept positive. -/
def div (a b : Frac) : Frac :=
  if 0 < b.num then ⟨a.num * b.den, a.den * b.num⟩
  else ⟨-(a.num * b.den), a.den * (-b.num)⟩

/-- Numeric equality of fractions (cross multiplication; dens positive). -/
def beq (a b : Frac) : Bool := a.num * b.den = b.num * a.den

/-- Numeric three-way comparison of fractions (dens positive). -/
def fcompare (a b : Frac) : Ordering := cmpInt (a.num * b.den) (b.num * a.den)

end Frac

/-- Model of Rust `f64`: NaN, the infinities, and exact finite values.
See the modelling conventions at the top of the file. -/
inductive F64 : Type
  | nan : F64
  | neginf : F64
  | posinf : F64
  | fin : Frac → F64
  deriving DecidableEq, Repr

namespace F64

/-- IEEE negation (`-x`). -/
def neg : F64 → F64
  | nan => nan
  | neginf => posinf
  | posinf => neginf
  | fin q => fin q.neg

/-- IEEE addition, exact on finite values. -/
def add : F64 → F64 → F64
  | nan, _ => nan
  | _, nan => nan
  | fin a, fin b => fin (a.add b)
  | fin _, posinf => posinf
  | fin _, neginf => neginf
  | posinf, fin _ => posinf
  | neginf, fin _ => neginf
  | posinf, posinf => posinf
  | posinf, neginf => nan
  | neginf, posinf => nan
  | neginf, neginf => neginf

/-- IEEE subtraction, exact on finite values. -/
def sub : F64 → F64 → F64
  | nan, _ => nan
  | _, nan => nan
  | fin a, fin b => fin (a.sub b)
  | fin _, posinf => neginf
  | fin _, neginf => posinf
  | posinf, fin _ => posinf
  | neginf, fin _ => neginf
  | posinf, posinf => nan
  | posinf, neginf => posinf
  | neginf, posinf => neginf
  | neginf, neginf => nan

/-- IEEE multiplication, exact on finite values (`0 * inf = NaN`). -/
def mul : F64 → F64 → F64
  | nan, _ => nan
  | _, nan => nan
  | fin a, fin b => fin (a.mul b)
  | fin a, posinf => if a.isZero then nan else if a.isPos then posinf else neginf
  | fin a, neginf => if a.isZero then nan else if a.isPos then neginf else posinf
  | posinf, fin b => if b.isZero then nan else if b.isPos then posinf else neginf
  | neginf, fin b => if b.isZero then nan else if b.isPos then neginf else posinf
  | posinf, posinf => posinf
  | posinf, neginf => neginf
  | neginf, posinf => neginf
  | neginf, neginf => posinf

/-- IEEE division, exact on finite values (`0/0 = NaN`, `x/0 = ±inf` for
`x ≠ 0`; the negative-zero divisor is not modelled). -/
def div : F64 → F64 → F64
  | nan, _ => nan
  | _, nan => nan
  | fin a, fin b =>
      if b.isZero then
        if a.isZero then nan else if a.isPos then posinf else neginf
      else fin (a.div b)
  | fin _, posinf => fin (Frac.ofInt 0)
  | fin _, neginf => fin (Frac.ofInt 0)
  | posinf, fin b => if b.isPos ∨ b.isZero then posinf else neginf
  | neginf, fin b => if b.isPos ∨ b.isZero then neginf else posinf
  | posinf, posinf => nan
  | posinf, neginf => nan
  | neginf, posinf => nan
  | neginf, neginf => nan

/-- Rust `f64::partial_cmp`: `none` whenever either side is NaN. -/
def pcmp : F64 → F64 → Option Ordering
  | nan, _ => none
  | _, nan => none
  | neginf, neginf => some .eq
  | neginf, _ => some .lt
  | posinf, posinf => some .eq
  | posinf, _ => some .gt
  | fin _, neginf => some .gt
  | fin _, posinf => some .lt
  | fin a, fin b => some (a.fcompare b)

/-- Rust `f64 == f64` (IEEE equality: NaN is unequal to everything). -/
def ieeeEq (a b : F64) : Bool := a.pcmp b == some .eq

end F64

/-- The FNV-1a 64-bit offset basis. -/
def fnvOffsetBasis : ℕ := 0xcbf29ce484222325

/-- The FNV-1a 64-bit prime. -/
def fnvPrime : ℕ := 0x100000001b3

/-- One FNV-1a step over a byte (wrapping 64-bit arithmetic). -/
def fnvStep (h b : ℕ) : ℕ := ((h ^^^ b) * fnvPrime) % 2 ^ 64

/-- UTF-8 encoding of one character. -/
def utf8Bytes (c : Char) : List ℕ :=
  let n := c.toNat
  if n < 0x80 then [n]
  else if n < 0x800 then [0xC0 ||| (n >>> 6), 0x80 ||| (n &&& 0x3F)]
  else if n < 0x10000 then
    [0xE0 ||| (n >>> 12), 0x80 ||| ((n >>> 6) &&& 0x3F), 0x80 ||| (n &&& 0x3F)]
  else
    [0xF0 ||| (n >>> 18), 0x80 ||| ((n >>> 12) &&& 0x3F),
     0x80 ||| ((n >>> 6) &&& 0x3F), 0x80 ||| (n &&& 0x3F)]

/-- The FNV-1a hash of a Rust `String` as `LoxString::from` computes it:
the UTF-8 bytes followed by the `0xff` terminator byte that `Hash for str`
feeds to the hasher. -/
def fnvHashString (s : String) : ℕ :=
  ((s.data.flatMap utf8Bytes) ++ [0xff]).foldl fnvStep fnvOffsetBasis

/-- Model of `string.rs`'s `LoxString`: the string contents, the identity of
the canonical `Rc<String>` allocation (`allocId`), and the precomputed FNV
hash. -/
structure LoxString where
  string : String
  allocId : ℕ
  hash : ℕ
  deriving DecidableEq, Repr

/-- Model of `LoxString::from(Rc<String>)`: wraps a fresh allocation and
precomputes the hash. -/
def LoxString.fromRc (s : String) (id : ℕ) : LoxString :=
  ⟨s, id, fnvHashString s⟩

/-- Model of `PartialEq for LoxString`: pointer equality of the contained
`Rc<String>` allocations. -/
def LoxString.ptrEq (a b : LoxString) : Bool := a.allocId == b.allocId

/-- Model of `object.rs`'s `Object` as the core uses it: heap objects, of
which only strings exist. -/
inductive Object : Type
  | str : LoxString → Object
  deriving DecidableEq, Repr

/-- Derived `PartialEq for Object`: string payloads compare by `LoxString`
(pointer) equality. -/
def Object.peq : Object → Object → Bool
  | .str a, .str b => a.ptrEq b

/-- Model of `Object::as_string`; the `Value::as_string` caller asserts the
object is a string. -/
def Object.as_string : Object → LoxString
  | .str s => s

/-- Model of `value.rs`'s `Value`. -/
inductive Value : Type
  | bool : Bool → Value
  | nil : Value
  | number : F64 → Value
  | obj : Object → Value
  deriving DecidableEq, Repr

namespace Value

/-- The variant discriminant, modelling `core::mem::discriminant`. -/
def discr : Value → ℕ
  | .bool _ => 0
  | .nil => 1
  | .number _ => 2
  | .obj _ => 3

/-- Model of `PartialEq for Value`: payload comparison within a variant
(IEEE equality for numbers, pointer equality for objects), discriminant
comparison otherwise. -/
def peq : Value → Value → Bool
  | .bool a, .bool b => a == b
  | .number a, .number b => a.ieeeEq b
  | .obj a, .obj b => a.peq b
  | a, b => a.discr == b.discr

/-- Model of `PartialOrd for Value`: only number/number pairs compare. -/
def pcmp : Value → Value → Option Ordering
  | .number a, .number b => a.pcmp b
  | _, _ => none

/-- Model of `Value::is_falsey`. -/
def is_falsey : Value → Bool
  | .bool v => !v
  | .nil => true
  | .number _ => false
  | .obj _ => false

/-- Model of `Not for &Value`. -/
def notVal (v : Value) : Value := .bool v.is_falsey

/-- Model of `Value::as_object`; `none` is the panic on a non-object. -/
def as_object : Value → Option Object
  | .obj o => some o
  | _ => none

/-- Model of `Value::as_string` (`as_object` then `Object::as_string`). -/
def as_string (v : Value) : Option LoxString :=
  (v.as_object).map Object.as_string

end Value

/-- Decimal digits of a natural number (executable, fueled by the number
itself through `Nat.toDigits`-style recursion). -/
def natDigits : ℕ → ℕ → List Char
  | 0, _ => []
  | fuel + 1, n =>
    if n = 0 then []
    else natDigits fuel (n / 10) ++ [Char.ofNat (48 + n % 10)]

/-- Decimal rendering of a natural number. -/
def natToString (n : ℕ) : String :=
  if n = 0 then "0" else String.mk (natDigits (n + 1) n)

/-- Decimal rendering of an integer. -/
def intToString (n : ℤ) : String :=
  if n < 0 then "-" ++ natToString n.natAbs else natToString n.natAbs

/-- Fractional decimal digits of `r / d` (`0 ≤ r < d`), up to `fuel` digits.
Rust's shortest-roundtrip float printing is approximated by exact decimal
expansion; the proven claims print only integers. -/
def fracDigits : ℕ → ℕ → ℕ → List Char
  | 0, _, _ => []
  | fuel + 1, r, d =>
    if r = 0 then []
    else Char.ofNat (48 + (r * 10) / d) :: fracDigits fuel ((r * 10) % d) d

/-- Display of an `F64`, following Rust's `Display for f64` on the values the
core can print (integral values print with no decimal point). -/
def F64.render : F64 → String
  | .nan => "NaN"
  | .posinf => "inf"
  | .neginf => "-inf"
  | .fin q =>
    let sign := if q.num * q.den < 0 then "-" else ""
    let n := q.num.natAbs
    let d := q.den.natAbs
    let whole := natToString (n / d)
    let rest := n % d
    if rest = 0 then sign ++ whole
    else sign ++ whole ++ "." ++ String.mk (fracDigits 17 rest d)

/-- Model of `Display for Value` as `print_value` uses it. -/
def Value.render : Value → String
  | .bool b => if b then "true" else "false"
  | .nil => "nil"
  | .number n => n.render
  | .obj (.str s) => s.string

/-- Model of `chunk.rs`'s `OpCode` (with `Loop = 23`, see the header). -/
inductive OpCode : Type
  | ret
  | constant
  | negate
  | add
  | subtract
  | multiply
  | divide
  | nilOp
  | trueOp
  | falseOp
  | notOp
  | equal
  | greater
  | less
  | print
  | pop
  | defineGlobal
  | getGlobal
  | setGlobal
  | getLocal
  | setLocal
  | jumpIfFalse
  | jump
  | loop
  deriving DecidableEq, Repr

namespace OpCode

/-- The `repr(u8)` discriminants assigned in the source. -/
def toByte : OpCode → ℕ
  | ret => 0
  | constant => 1
  | negate => 2
  | add => 3
  | subtract => 4
  | multiply => 5
  | divide => 6
  | nilOp => 7
  | trueOp => 8
  | falseOp => 9
  | notOp => 10
  | equal => 11
  | greater => 12
  | less => 13
  | print => 14
  | pop => 15
  | defineGlobal => 16
  | getGlobal => 17
  | setGlobal => 18
  | getLocal => 19
  | setLocal => 20
  | jumpIfFalse => 21
  | jump => 22
  | loop => 23

/-- Model of `TryFromPrimitive`: decode a byte back into an opcode. -/
def fromByte (b : ℕ) : Option OpCode :=
  match b with
  | 0 => some ret
  | 1 => some constant
  | 2 => some negate
  | 3 => some add
  | 4 => some subtract
  | 5 => some multiply
  | 6 => some divide
  | 7 => some nilOp
  | 8 => some trueOp
  | 9 => some falseOp
  | 10 => some notOp
  | 11 => some equal
  | 12 => some greater
  | 13 => some less
  | 14 => some print
  | 15 => some pop
  | 16 => some defineGlobal
  | 17 => some getGlobal
  | 18 => some setGlobal
  | 19 => some getLocal
  | 20 => some setLocal
  | 21 => some jumpIfFalse
  | 22 => some jump
  | 23 => some loop
  | _ => none

end OpCode

/-- Model of `chunk.rs`'s `Chunk`: bytecode, constants pool, and the parallel
line table. -/
structure Chunk where
  code : List ℕ
  constants : List Value
  lines : List ℕ
  deriving DecidableEq, Repr

namespace Chunk

/-- Model of `Chunk::new` (`Default::default`). -/
def new : Chunk := ⟨[], [], []⟩

/-- Model of `Chunk::write_byte`: appends one code byte and one line entry. -/
def write_byte (c : Chunk) (byte line : ℕ) : Chunk :=
  { c with code := c.code ++ [byte], lines := c.lines ++ [line] }

/-- Model of `Chunk::write_opcode`. -/
def write_opcode (c : Chunk) (op : OpCode) (line : ℕ) : Chunk :=
  c.write_byte op.toByte line

/-- Model of `Chunk::add_constant`: appends a constant and returns its index. -/
def add_constant (c : Chunk) (v : Value) : Chunk × ℕ :=
  ({ c with constants := c.constants ++ [v] }, c.constants.length)

/-- Model of `Chunk::count`. -/
def count (c : Chunk) : ℕ := c.code.length

end Chunk

/-- The VM's globals table, `FnvHashMap<Rc<String>, Value>`, modelled as an
association list with distinct keys (keyed, like the hash map, by string
contents).  Entry order carries no meaning beyond first-match lookup. -/
abbrev Globals := List (String × Value)

/-- Model of `HashMap::get`. -/
def gLookup (g : Globals) (k : String) : Option Value :=
  match g with
  | [] => none
  | (k', v) :: rest => if k' = k then some v else gLookup rest k

/-- Model of `HashMap::insert`: replaces in place and returns the previous
value, or appends when the key is new and returns `none`. -/
def gInsert (g : Globals) (k : String) (v : Value) : Option Value × Globals :=
  match g with
  | [] => (none, [(k, v)])
  | (k', v') :: rest =>
    if k' = k then (some v', (k, v) :: rest)
    else
      let (old, g') := gInsert rest k v
      (old, (k', v') :: g')

/-- Model of `HashMap::remove` (the removed value is discarded by the VM). -/
def gRemove (g : Globals) (k : String) : Globals :=
  match g with
  | [] => []
  | (k', v') :: rest => if k' = k then rest else (k', v') :: gRemove rest k

/-- The VM's string-interning table, `FnvHashMap<Rc<String>, LoxString>`,
modelled as an association list keyed by string contents plus the counter
that hands out allocation ids for fresh canonical `Rc<String>` allocations. -/
structure InternTable where
  entries : List (String × LoxString)
  nextId : ℕ
  deriving DecidableEq, Repr

/-- The empty interning table of a fresh VM. -/
def InternTable.empty : InternTable := ⟨[], 0⟩

/-- Lookup by contents in the interning table. -/
def iLookup (es : List (String × LoxString)) (k : String) : Option LoxString :=
  match es with
  | [] => none
  | (k', v) :: rest => if k' = k then some v else iLookup rest k

/-- Model of `Vm::intern_string`: `entry(..).or_insert_with(..).clone()` —
return the canonical `LoxString` for the contents, allocating a fresh
canonical `Rc<String>` only when the contents are new. -/
def intern_string (t : InternTable) (s : String) : LoxString × InternTable :=
  match iLookup t.entries s with
  | some ls => (ls, t)
  | none =>
    let ls := LoxString.fromRc s t.nextId
    (ls, ⟨t.entries ++ [(s, ls)], t.nextId + 1⟩)

/-- The interpreter's result status: `Ok(())` or `Err(VmError::RuntimeError)`. -/
inductive RunOut : Type
  | ok : RunOut
  | failure : RunOut
  deriving DecidableEq, Repr

/-- Model of `vm.rs`'s `Vm` state, extended with the observable stdout and
stderr streams (one list entry per `print!`/`println!`/`eprintln!` write).
The value stack is a list with its head at the top of the Rust `Vec`. -/
structure VmState where
  chunk : Chunk
  ip : ℕ
  stack : List Value
  strings : InternTable
  globals : Globals
  stdoutSink : List String
  stderrSink : List String
  deriving DecidableEq, Repr

/-- A fresh VM (`Vm::new`). -/
def VmState.new : VmState :=
  ⟨Chunk.new, 0, [], InternTable.empty, [], [], []⟩

namespace VmState

/-- Model of `Vm::read_byte`; `none` is the index panic. -/
def read_byte (s : VmState) : Option (ℕ × VmState) :=
  match s.chunk.code.get? s.ip with
  | some b => some (b, { s with ip := s.ip + 1 })
  | none => none

/-- Model of `Vm::read_short` (big-endian 16-bit operand). -/
def read_short (s : VmState) : Option (ℕ × VmState) :=
  match s.chunk.code.get? s.ip, s.chunk.code.get? (s.ip + 1) with
  | some top, some bottom => some ((top <<< 8) ||| bottom, { s with ip := s.ip + 2 })
  | _, _ => none

/-- Model of `Vm::read_constant`; `none` is the constants-index panic. -/
def read_constant (s : VmState) : Option (Value × VmState) := do
  let (b, s) ← s.read_byte
  let v ← s.chunk.constants.get? b
  return (v, s)

/-- Model of `Vm::read_string` (`read_constant` plus the string assertion). -/
def read_string (s : VmState) : Option (LoxString × VmState) := do
  let (v, s) ← s.read_constant
  let ls ← v.as_string
  return (ls, s)

/-- Model of `Vm::reset_stack`.  (Defined in the source but never called.) -/
def reset_stack (s : VmState) : VmState := { s with stack := [] }

/-- Model of `Vm::peek`; `none` is the `unwrap` panic (also on the `usize`
underflow of `len - 1 - distance`). -/
def peek (s : VmState) (distance : ℕ) : Option Value :=
  s.stack.get? distance

/-- Model of `Vm::runtime_error`: writes the message and the
`[line L] in script` line (with `L = chunk.lines[ip - 1]`) to stderr;
`none` is the line-table index panic. -/
def runtime_error (s : VmState) (message : String) : Option VmState :=
  match s.chunk.lines.get? (s.ip - 1) with
  | some line =>
    some { s with stderrSink :=
      s.stderrSink ++ [message, "[line " ++ natToString line ++ "] in script"] }
  | none => none

end VmState

/-- The outcome of executing one instruction: continue at the next state,
terminate successfully (`Return`), or terminate with a runtime error. -/
inductive Step : Type
  | next : VmState → Step
  | done : VmState → Step
  | fail : VmState → Step
  deriving Repr

/-- Model of the `Subtract`/`Multiply`/`Divide` arms' `numeric_binary_op`:
pops both operands, requires two numbers. -/
def numeric_binary_op (s : VmState) (op : F64 → F64 → F64) : Option Step :=
  match s.stack with
  | .number b :: .number a :: rest =>
    some (.next { s with stack := .number (op a b) :: rest })
  | _ :: _ :: rest => do
    let s' ← VmState.runtime_error { s with stack := rest } "Operands must be numbers."
    return .fail s'
  | _ => none

/-- Model of `Vm::comparison_binary_op`: pops both operands, compares with
`PartialOrd for Value`, pushes whether the ordering matched. -/
def comparison_binary_op (s : VmState) (ordering : Ordering) : Option Step :=
  match s.stack with
  | b :: a :: rest =>
    match a.pcmp b with
    | some o => some (.next { s with stack := .bool (o == ordering) :: rest })
    | none => do
      let s' ← VmState.runtime_error { s with stack := rest } "Operands must be numbers."
      return .fail s'
  | _ => none

/-- Model of `Vm::concatenate` (on an already-popped stack): interns the
concatenation and pushes the canonical string value. -/
def concatenate (s : VmState) (a b : LoxString) : VmState :=
  let (ls, t) := intern_string s.strings (a.string ++ b.string)
  { s with strings := t, stack := .obj (.str ls) :: s.stack }

/-- One iteration of `Vm::run`'s interpreter loop: fetch, decode, execute.
`none` is a Rust panic (malformed chunk). -/
def step (s : VmState) : Option Step := do
  let (b, s) ← s.read_byte
  let instr ← OpCode.fromByte b
  match instr with
  | .ret => return .done s
  | .constant => do
    let (v, s) ← s.read_constant
    return .next { s with stack := v :: s.stack }
  | .negate =>
    match s.stack with
    | .number n :: rest => return .next { s with stack := .number n.neg :: rest }
    | _ :: _ => do
      let s' ← s.runtime_error "Operand must be a number."
      return .fail s'
    | [] => none
  | .add =>
    match s.stack with
    | .number b :: .number a :: rest =>
      return .next { s with stack := .number (a.add b) :: rest }
    | .obj (.str b) :: .obj (.str a) :: rest =>
      return .next (concatenate { s with stack := rest } a b)
    | _ :: _ :: rest => do
      let s' ← VmState.runtime_error { s with stack := rest }
        "Operands must be two numbers or two strings."
      return .fail s'
    | _ => none
  | .subtract => numeric_binary_op s F64.sub
  | .multiply => numeric_binary_op s F64.mul
  | .divide => numeric_binary_op s F64.div
  | .nilOp => return .next { s with stack := .nil :: s.stack }
  | .trueOp => return .next { s with stack := .bool true :: s.stack }
  | .falseOp => return .next { s with stack := .bool false :: s.stack }
  | .notOp =>
    match s.stack with
    | top :: rest => return .next { s with stack := top.notVal :: rest }
    | [] => none
  | .equal =>
    match s.stack with
    | b :: a :: rest => return .next { s with stack := .bool (a.peq b) :: rest }
    | _ => none
  | .greater => comparison_binary_op s .gt
  | .less => comparison_binary_op s .lt
  | .pop =>
    match s.stack with
    | _ :: rest => return .next { s with stack := rest }
    | [] => none
  | .print =>
    match s.stack with
    | v :: rest =>
      return .next { s with stack := rest, stdoutSink := s.stdoutSink ++ [v.render, "\n"] }
    | [] => none
  | .defineGlobal => do
    let (name, s) ← s.read_string
    let v ← s.peek 0
    let (_, g) := gInsert s.globals name.string v
    match s.stack with
    | _ :: rest => return .next { s with globals := g, stack := rest }
    | [] => none
  | .getGlobal => do
    let (name, s) ← s.read_string
    match gLookup s.globals name.string with
    | some v => return .next { s with stack := v :: s.stack }
    | none => do
      let s' ← s.runtime_error ("Undefined variable '" ++ name.string ++ "'.")
      return .fail s'
  | .setGlobal => do
    let (name, s) ← s.read_string
    let v ← s.peek 0
    let inserted := gInsert s.globals name.string v
    if inserted.1 = Option.none then
      match s.stack with
      | _ :: rest => do
        let s' ← VmState.runtime_error
          { s with globals := gRemove inserted.2 name.string, stack := rest }
          ("Undefined variable '" ++ name.string ++ "'.")
        return .fail s'
      | [] => none
    else
      return .next { s with globals := inserted.2 }
  | .getLocal => do
    let (slot, s) ← s.read_byte
    if h : slot < s.stack.length then
      let v := s.stack.get ⟨s.stack.length - 1 - slot, by omega⟩
      return .next { s with stack := v :: s.stack }
    else none
  | .setLocal => do
    let (slot, s) ← s.read_byte
    let v ← s.peek 0
    if slot < s.stack.length then
      return .next { s with stack := s.stack.set (s.stack.length - 1 - slot) v }
    else none
  | .jumpIfFalse => do
    let (off, s) ← s.read_short
    let v ← s.peek 0
    if v.is_falsey then return .next { s with ip := s.ip + off }
    else return .next s
  | .jump => do
    let (off, s) ← s.read_short
    return .next { s with ip := s.ip + off }
  | .loop => do
    let (off, s) ← s.read_short
    if off ≤ s.ip then return .next { s with ip := s.ip - off }
    else none

/-- Model of `Vm::run`: iterate `step` until `Return` or a runtime error.
`none` is fuel exhaustion or a Rust panic. -/
def runFuel : ℕ → VmState → Option (RunOut × VmState)
  | 0, _ => none
  | fuel + 1, s =>
    match step s with
    | none => none
    | some (.done s') => some (.ok, s')
    | some (.fail s') => some (.failure, s')
    | some (.next s') => runFuel fuel s'

/-- Model of the state mutation of `Vm::interpret`: install the chunk and
reset the instruction pointer (the stack, globals, strings and streams are
kept). -/
def interpretSetup (s : VmState) (c : Chunk) : VmState :=
  { s with chunk := c, ip := 0 }

/-- Model of `Vm::interpret`: install the chunk and run. -/
def interpret (fuel : ℕ) (s : VmState) (c : Chunk) : Option (RunOut × VmState) :=
  runFuel fuel (interpretSetup s c)

/-- Model of `token.rs`'s `TokenType` (keyword kinds carry a `kw` prefix
because their source names are Lean keywords). -/
inductive TokenType : Type
  | leftParen
  | rightParen
  | leftBrace
  | rightBrace
  | comma
  | dot
  | minus
  | plus
  | semicolon
  | slash
  | star
  | bang
  | bangEqual
  | equal
  | equalEqual
  | greater
  | greaterEqual
  | less
  | lessEqual
  | identifier
  | string
  | number
  | kwAnd
  | kwClass
  | kwElse
  | kwFalse
  | kwFun
  | kwFor
  | kwIf
  | kwNil
  | kwOr
  | kwPrint
  | kwReturn
  | kwSuper
  | kwThis
  | kwTrue
  | kwVar
  | kwWhile
  | error
  | eof
  deriving DecidableEq, BEq, Repr

/-- Model of `token.rs`'s `Token`.  Lexemes are modelled as the strings the
source slices denote. -/
structure Token where
  tokenType : TokenType
  lexeme : String
  line : ℕ
  deriving DecidableEq, Repr

/-- Model of `Token::identifiers_equal` (lexeme comparison). -/
def Token.identifiers_equal (a b : Token) : Bool := a.lexeme == b.lexeme

/-- Model of `scanner.rs`'s `Scanner`: `start` and `current` are suffixes of
the source text (as character lists), exactly as the Rust slices are. -/
structure Scanner where
  start : List Char
  current : List Char
  line : ℕ
  deriving DecidableEq, Repr

/-- Model of `Scanner::new`. -/
def Scanner.new (source : String) : Scanner := ⟨source.data, source.data, 1⟩

/-- Model of `is_alpha` (ASCII alphabetic or underscore). -/
def is_alpha (c : Char) : Bool := c.isAlpha || c = '_'

/-- Consume a `//` comment up to (not including) the newline or the end. -/
def skipComment : List Char → List Char
  | [] => []
  | c :: rest => if c = '\n' then c :: rest else skipComment rest

/-- Model of `Scanner::skip_whitespace` on (current, line); fueled because of
the comment sub-loop. -/
def skipWs : ℕ → List Char → ℕ → Option (List Char × ℕ)
  | 0, _, _ => none
  | fuel + 1, cs, line =>
    match cs with
    | [] => some ([], line)
    | c :: rest =>
      if c = ' ' ∨ c = '\r' ∨ c = '\t' then skipWs fuel rest line
      else if c = '\n' then skipWs fuel rest (line + 1)
      else if c = '/' then
        match rest with
        | '/' :: rest2 => skipWs fuel (skipComment rest2) line
        | _ => some (cs, line)
      else some (cs, line)

/-- The body loop of `Scanner::string`: returns the suffix after the closing
quote and the updated line, or `none` with the final line when unterminated. -/
def scanStringBody : List Char → ℕ → Option (List Char) × ℕ
  | [], line => (none, line)
  | c :: rest, line =>
    if c = '"' then (some rest, line)
    else if c = '\n' then scanStringBody rest (line + 1)
    else scanStringBody rest line

/-- Model of `Scanner::consume_digits`. -/
def consumeDigits : List Char → List Char
  | [] => []
  | c :: rest => if c.isDigit then consumeDigits rest else c :: rest

/-- The identifier loop of `Scanner::identifier`. -/
def consumeIdent : List Char → List Char
  | [] => []
  | c :: rest => if is_alpha c || c.isDigit then consumeIdent rest else c :: rest

/-- Model of `Scanner::identifier_type`: the reserved-word table. -/
def identifier_type (lexeme : String) : TokenType :=
  match lexeme with
  | "and" => .kwAnd
  | "class" => .kwClass
  | "else" => .kwElse
  | "false" => .kwFalse
  | "for" => .kwFor
  | "fun" => .kwFun
  | "if" => .kwIf
  | "nil" => .kwNil
  | "or" => .kwOr
  | "print" => .kwPrint
  | "return" => .kwReturn
  | "super" => .kwSuper
  | "this" => .kwThis
  | "true" => .kwTrue
  | "var" => .kwVar
  | "while" => .kwWhile
  | _ => .identifier

/-- Model of `Scanner::make_token`: the lexeme is the slice from `start` to
`current`. -/
def Scanner.make_token (sc : Scanner) (tt : TokenType) : Token :=
  ⟨tt, String.mk (sc.start.take (sc.start.length - sc.current.length)), sc.line⟩

/-- Model of `Scanner::error_token`: the message stands in for the lexeme. -/
def Scanner.error_token (sc : Scanner) (message : String) : Token :=
  ⟨.error, message, sc.line⟩

/-- Model of `Scanner::scan_token` (fueled only through `skip_whitespace`). -/
def scan_token (fuel : ℕ) (sc : Scanner) : Option (Token × Scanner) := do
  let (cur, line) ← skipWs fuel sc.current sc.line
  let sc : Scanner := ⟨cur, cur, line⟩
  match cur with
  | [] => return (sc.make_token .eof, sc)
  | c :: rest =>
    let sc1 : Scanner := { sc with current := rest }
    if c = '(' then return (sc1.make_token .leftParen, sc1)
    else if c = ')' then return (sc1.make_token .rightParen, sc1)
    else if c = '{' then return (sc1.make_token .leftBrace, sc1)
    else if c = '}' then return (sc1.make_token .rightBrace, sc1)
    else if c = ';' then return (sc1.make_token .semicolon, sc1)
    else if c = ',' then return (sc1.make_token .comma, sc1)
    else if c = '.' then return (sc1.make_token .dot, sc1)
    else if c = '-' then return (sc1.make_token .minus, sc1)
    else if c = '+' then return (sc1.make_token .plus, sc1)
    else if c = '/' then return (sc1.make_token .slash, sc1)
    else if c = '*' then return (sc1.make_token .star, sc1)
    else if c = '!' then
      match rest with
      | '=' :: rest2 =>
        let sc2 : Scanner := { sc with current := rest2 }
        return (sc2.make_token .bangEqual, sc2)
      | _ => return (sc1.make_token .bang, sc1)
    else if c = '=' then
      match rest with
      | '=' :: rest2 =>
        let sc2 : Scanner := { sc with current := rest2 }
        return (sc2.make_token .equalEqual, sc2)
      | _ => return (sc1.make_token .equal, sc1)
    else if c = '<' then
      match rest with
      | '=' :: rest2 =>
        let sc2 : Scanner := { sc with current := rest2 }
        return (sc2.make_token .lessEqual, sc2)
      | _ => return (sc1.make_token .less, sc1)
    else if c = '>' then
      match rest with
      | '=' :: rest2 =>
        let sc2 : Scanner := { sc with current := rest2 }
        return (sc2.make_token .greaterEqual, sc2)
      | _ => return (sc1.make_token .greater, sc1)
    else if c = '"' then
      match scanStringBody rest sc.line with
      | (some after, line2) =>
        let sc2 : Scanner := { sc with current := after, line := line2 }
        return (sc2.make_token .string, sc2)
      | (none, line2) =>
        let sc2 : Scanner := { sc with current := [], line := line2 }
        return (sc2.error_token "Unterminated string.", sc2)
    else if c.isDigit then
      let afterInt := consumeDigits rest
      let afterNum :=
        match afterInt with
        | '.' :: d :: rest2 => if d.isDigit then consumeDigits (d :: rest2) else afterInt
        | _ => afterInt
      let sc2 : Scanner := { sc with current := afterNum }
      return (sc2.make_token .number, sc2)
    else if is_alpha c then
      let afterIdent := consumeIdent rest
      let sc2 : Scanner := { sc with current := afterIdent }
      let lexeme := String.mk (sc2.start.take (sc2.start.length - sc2.current.length))
      return (sc2.make_token (identifier_type lexeme), sc2)
    else
      return (sc1.error_token "Unexpected character.", sc1)

/-- Model of `compiler.rs`'s `Precedence`. -/
inductive Precedence : Type
  | none
  | assignment
  | orPrec
  | andPrec
  | equality
  | comparison
  | term
  | factor
  | unary
  | call
  | primary
  deriving DecidableEq, Repr

namespace Precedence

/-- The `repr(u8)` discriminants. -/
def toU8 : Precedence → ℕ
  | none => 0
  | assignment => 1
  | orPrec => 2
  | andPrec => 3
  | equality => 4
  | comparison => 5
  | term => 6
  | factor => 7
  | unary => 8
  | call => 9
  | primary => 10

/-- Model of `TryFromPrimitive` for `Precedence`. -/
def fromU8 : ℕ → Option Precedence
  | 0 => some none
  | 1 => some assignment
  | 2 => some orPrec
  | 3 => some andPrec
  | 4 => some equality
  | 5 => some comparison
  | 6 => some term
  | 7 => some factor
  | 8 => some unary
  | 9 => some call
  | 10 => some primary
  | _ => Option.none

/-- Model of `Precedence::higher`; `Option.none` is the `unwrap` panic past
`Primary`. -/
def higher (p : Precedence) : Option Precedence := fromU8 (p.toU8 + 1)

/-- The derived `PartialOrd` order on `Precedence`. -/
def ple (p q : Precedence) : Bool := p.toU8 ≤ q.toU8

end Precedence

/-- The parse functions that populate `RULE_TABLE`, as named dispatch tags
(the spec itself sanctions an enum of rule kinds for first-class function
tables). -/
inductive ParseFnTag : Type
  | grouping
  | binary
  | unary
  | number
  | literal
  | stringLit
  | variableRef
  deriving DecidableEq, Repr

/-- One `ParseRule` entry of `RULE_TABLE`. -/
structure ParseRule where
  prefixFn : Option ParseFnTag
  infixFn : Option ParseFnTag
  prec : Precedence
  deriving DecidableEq, Repr

/-- Model of `RULE_TABLE` and `Compiler::get_parse_rule`: the source indexes
a 40-entry array by the token-kind discriminant; matching on the kind is the
same mapping. -/
def get_parse_rule : TokenType → ParseRule
  | .leftParen => ⟨some .grouping, Option.none, .none⟩
  | .minus => ⟨some .unary, some .binary, .term⟩
  | .plus => ⟨Option.none, some .binary, .term⟩
  | .slash => ⟨Option.none, some .binary, .factor⟩
  | .star => ⟨Option.none, some .binary, .factor⟩
  | .bang => ⟨some .unary, Option.none, .none⟩
  | .bangEqual => ⟨some .binary, some .binary, .equality⟩
  | .equalEqual => ⟨some .binary, some .binary, .equality⟩
  | .greater => ⟨some .binary, some .binary, .comparison⟩
  | .greaterEqual => ⟨some .binary, some .binary, .comparison⟩
  | .less => ⟨some .binary, some .binary, .comparison⟩
  | .lessEqual => ⟨some .binary, some .binary, .comparison⟩
  | .identifier => ⟨some .variableRef, Option.none, .none⟩
  | .string => ⟨some .stringLit, Option.none, .none⟩
  | .number => ⟨some .number, Option.none, .none⟩
  | .kwFalse => ⟨some .literal, Option.none, .none⟩
  | .kwNil => ⟨some .literal, Option.none, .none⟩
  | .kwTrue => ⟨some .literal, Option.none, .none⟩
  | _ => ⟨Option.none, Option.none, .none⟩

/-- Model of `compiler.rs`'s `Local`. -/
structure Local where
  name : Token
  depth : Option ℕ
  deriving DecidableEq, Repr

/-- Model of `Local::new`. -/
def Local.new (name : Token) : Local := ⟨name, Option.none⟩

/-- Model of `compiler.rs`'s `Locals`.  The Rust `Vec` grows at its end; the
model list keeps the vector's LAST element (the innermost local) at its HEAD,
so pushing is `cons` and the top-down iterations are plain recursion.
`resolve_local` converts back to the bottom-based index the source returns. -/
structure Locals where
  locals : List Local
  scope_depth : ℕ
  deriving DecidableEq, Repr

/-- Model of `UINT8_COUNT`. -/
def UINT8_COUNT : ℕ := 256

namespace Locals

/-- Model of `Locals::new`. -/
def new : Locals := ⟨[], 0⟩

/-- Model of `Locals::add`; `none` is the full-table `Err(())`. -/
def add (ls : Locals) (name : Token) : Option Locals :=
  if ls.locals.length = UINT8_COUNT then Option.none
  else some { ls with locals := Local.new name :: ls.locals }

/-- The top-down scan of `Locals::contains_in_current_scope`, stopping at the
first local of an enclosing (shallower) scope. -/
def containsScan (scope_depth : ℕ) (name : Token) : List Local → Bool
  | [] => false
  | l :: rest =>
    if l.depth.elim false (fun depth => depth < scope_depth) then false
    else if l.name.identifiers_equal name then true
    else containsScan scope_depth name rest

/-- Model of `Locals::contains_in_current_scope`. -/
def contains_in_current_scope (ls : Locals) (name : Token) : Bool :=
  containsScan ls.scope_depth name ls.locals

end Locals

/-- Model of `compiler.rs`'s `ResolveLocalError`. -/
inductive ResolveLocalError : Type
  | uninitialized
  | notFound
  deriving DecidableEq, Repr

/-- The top-down scan of `Locals::resolve_local`, returning the position from
the TOP of the stack of the first (innermost) match. -/
def resolveScan (name : Token) : List Local → Except ResolveLocalError ℕ
  | [] => .error .notFound
  | l :: rest =>
    if l.name.identifiers_equal name then
      match l.depth with
      | Option.none => .error .uninitialized
      | some _ => .ok 0
    else
      match resolveScan name rest with
      | .ok p => .ok (p + 1)
      | .error e => .error e

/-- Model of `Locals::resolve_local`: the source iterates `enumerate().rev()`
and returns the bottom-based vector index of the innermost match. -/
def Locals.resolve_local (ls : Locals) (name : Token) : Except ResolveLocalError ℕ :=
  match resolveScan name ls.locals with
  | .ok p => .ok (ls.locals.length - 1 - p)
  | .error e => .error e

/-- Model of `Locals::mark_initialized`; `none` is the `last_mut().unwrap()`
panic on an empty table. -/
def Locals.mark_initialized (ls : Locals) : Option Locals :=
  match ls.locals with
  | [] => Option.none
  | l :: rest => some { ls with locals := { l with depth := some ls.scope_depth } :: rest }

/-- Model of `compiler.rs`'s `Compiler` state.  The borrowed `&mut Vm` is
represented by the part of the VM the compiler touches: its string-interning
table.  `cerr` collects the `eprint` diagnostics. -/
structure CompState where
  scanner : Scanner
  current : Option Token
  previous : Option Token
  had_error : Bool
  panic_mode : Bool
  compiling_chunk : Chunk
  locals : Locals
  vmStrings : InternTable
  cerr : List String
  deriving DecidableEq, Repr

/-- Model of `Compiler::new`. -/
def CompState.new (strings : InternTable) (source : String) : CompState :=
  ⟨Scanner.new source, Option.none, Option.none, false, false, Chunk.new, Locals.new,
   strings, []⟩

/-- The diagnostic line `Compiler::error_at` writes to stderr. -/
def renderErrAt (tok : Token) (msg : String) : String :=
  "[line " ++ natToString tok.line ++ "] Error" ++
    (match tok.tokenType with
     | .eof => " at end"
     | .error => ""
     | _ => " at " ++ tok.lexeme) ++ ": " ++ msg

namespace CompState

/-- Model of `Compiler::error_at`: suppressed entirely in panic mode,
otherwise enters panic mode, reports, and sets `had_error`. -/
def error_at (s : CompState) (tok : Token) (msg : String) : CompState :=
  if s.panic_mode then s
  else { s with panic_mode := true, had_error := true,
                cerr := s.cerr ++ [renderErrAt tok msg] }

/-- Model of `Compiler::error_at_current` (reports at `current`, then sets
`had_error`); `none` is the `unwrap` panic. -/
def error_at_current (s : CompState) (msg : String) : Option CompState := do
  let tok ← s.current
  return { s.error_at tok msg with had_error := true }

/-- Model of `Compiler::error` (reports at `previous`, then sets
`had_error`); `none` is the `unwrap` panic. -/
def error (s : CompState) (msg : String) : Option CompState := do
  let tok ← s.previous
  return { s.error_at tok msg with had_error := true }

/-- Model of `Compiler::check`. -/
def check (s : CompState) (tt : TokenType) : Bool :=
  s.current.elim false (fun t => t.tokenType == tt)

/-- Model of `Compiler::check_previous`. -/
def check_previous (s : CompState) (tt : TokenType) : Bool :=
  s.previous.elim false (fun t => t.tokenType == tt)

/-- Model of `Compiler::emit_byte`; `none` is the `previous.unwrap` panic. -/
def emit_byte (s : CompState) (byte : ℕ) : Option CompState := do
  let prev ← s.previous
  return { s with compiling_chunk := s.compiling_chunk.write_byte byte prev.line }

/-- Model of `Compiler::emit_opcode`. -/
def emit_opcode (s : CompState) (op : OpCode) : Option CompState := do
  let prev ← s.previous
  return { s with compiling_chunk := s.compiling_chunk.write_opcode op prev.line }

/-- Model of `Compiler::emit_opcodes`. -/
def emit_opcodes (s : CompState) (op1 op2 : OpCode) : Option CompState := do
  let s ← s.emit_opcode op1
  s.emit_opcode op2

/-- Model of `Compiler::make_constant` (overflow past index 255 reports
`Too many constants in one chunk.` and yields index 0). -/
def make_constant (s : CompState) (v : Value) : Option (CompState × ℕ) := do
  let (ch, idx) := s.compiling_chunk.add_constant v
  let s := { s with compiling_chunk := ch }
  if 255 < idx then do
    let s ← s.error "Too many constants in one chunk."
    return (s, 0)
  else return (s, idx)

/-- Model of `Compiler::emit_constant`. -/
def emit_constant (s : CompState) (v : Value) : Option CompState := do
  let s ← s.emit_opcode .constant
  let (s, idx) ← s.make_constant v
  s.emit_byte idx

/-- Model of `Compiler::emit_return`. -/
def emit_return (s : CompState) : Option CompState :=
  s.emit_opcode .ret

/-- Model of `Compiler::identifier_constant`: interns the identifier's lexeme
through the VM and registers the string value as a constant. -/
def identifier_constant (s : CompState) (name : Token) : Option (CompState × ℕ) :=
  let (ls, t) := intern_string s.vmStrings name.lexeme
  make_constant { s with vmStrings := t } (.obj (.str ls))

/-- Model of `Compiler::begin_scope`. -/
def begin_scope (s : CompState) : CompState :=
  { s with locals := { s.locals with scope_depth := s.locals.scope_depth + 1 } }

/-- Model of `Compiler::declare_variable`. -/
def declare_variable (s : CompState) : Option CompState := do
  if s.locals.scope_depth = 0 then return s
  let name ← s.previous
  let s ←
    if s.locals.contains_in_current_scope name then
      s.error "Already a variable with this name in this scope."
    else pure s
  match s.locals.add name with
  | some ls => return { s with locals := ls }
  | Option.none => s.error "Too many local variables in function."

/-- Model of `Compiler::define_variable`. -/
def define_variable (s : CompState) (global : ℕ) : Option CompState := do
  if 0 < s.locals.scope_depth then
    match s.locals.mark_initialized with
    | some ls => return { s with locals := ls }
    | Option.none => Option.none
  else do
    let s ← s.emit_opcode .defineGlobal
    s.emit_byte global

end CompState

/-- The popping loop of `Compiler::end_scope` over the locals (head = top):
stop at the first local whose depth is below the new scope depth (or is
unassigned), emitting one `Pop` per removed local.  `none` is the
`previous.unwrap` panic inside `emit_opcode`. -/
def end_scope_pops (d : ℕ) (prev : Option Token) :
    List Local → Chunk → Option (List Local × Chunk)
  | [], ch => some ([], ch)
  | l :: rest, ch =>
    if l.depth.elim true (fun depth => depth < d) then some (l :: rest, ch)
    else do
      let p ← prev
      end_scope_pops d prev rest (ch.write_opcode .pop p.line)

/-- Model of `Compiler::end_scope`: decrement `scope_depth`, then pop. -/
def CompState.end_scope (s : CompState) : Option CompState := do
  let d := s.locals.scope_depth - 1
  let (ls, ch) ← end_scope_pops d s.previous s.locals.locals s.compiling_chunk
  return { s with locals := ⟨ls, d⟩, compiling_chunk := ch }

/-- The inner loop of `Compiler::advance`: scan tokens, reporting and
skipping `Error` tokens. -/
def advanceGo : ℕ → CompState → Option CompState
  | 0, _ => Option.none
  | fuel + 1, s => do
    let (tok, sc) ← scan_token fuel s.scanner
    let s := { s with scanner := sc, current := some tok }
    match tok.tokenType with
    | .error => do
      let s ← s.error_at_current tok.lexeme
      advanceGo fuel s
    | _ => return s

/-- Model of `Compiler::advance`. -/
def advance (fuel : ℕ) (s : CompState) : Option CompState :=
  advanceGo fuel { s with previous := s.current, current := Option.none }

/-- Model of `Compiler::consume`. -/
def consume (fuel : ℕ) (s : CompState) (expected : TokenType) (msg : String) :
    Option CompState :=
  if s.current.elim false (fun t => t.tokenType == expected) then advance fuel s
  else s.error_at_current msg

/-- Model of `Compiler::match_`. -/
def matchToken (fuel : ℕ) (s : CompState) (tt : TokenType) : Option (Bool × CompState) :=
  if s.check tt then do
    let s ← advance fuel s
    return (true, s)
  else return (false, s)

/-- The statement-starter keywords `Compiler::synchronize` stops at. -/
def isSyncStarter : TokenType → Bool
  | .kwClass => true
  | .kwFun => true
  | .kwVar => true
  | .kwFor => true
  | .kwIf => true
  | .kwWhile => true
  | .kwPrint => true
  | .kwReturn => true
  | _ => false

/-- Model of the loop of `Compiler::synchronize` as written in the source:
while `current` is not `Eof`, return when `previous` is a semicolon or
`current` is a statement starter — the loop body advances no token — and
after the loop falls out (at `Eof`), `advance` once. -/
def synchronizeLoop : ℕ → CompState → Option CompState
  | 0, _ => Option.none
  | fuel + 1, s =>
    if !(s.check .eof) then
      if s.check_previous .semicolon then some s
      else
        match s.current.map Token.tokenType with
        | some tt =>
          if isSyncStarter tt then some s else synchronizeLoop fuel s
        | Option.none => synchronizeLoop fuel s
    else advance fuel s

/-- Model of `Compiler::synchronize`. -/
def synchronize (fuel : ℕ) (s : CompState) : Option CompState :=
  synchronizeLoop fuel { s with panic_mode := false }

/-- Model of `Compiler::parse_variable`. -/
def parse_variable (fuel : ℕ) (s : CompState) (errMsg : String) :
    Option (CompState × ℕ) := do
  let s ← consume fuel s .identifier errMsg
  let s ← s.declare_variable
  if 0 < s.locals.scope_depth then return (s, 0)
  else do
    let prev ← s.previous
    s.identifier_constant prev

/-- Value of a digit string read most-significant first. -/
def digitsVal : List Char → ℕ → ℕ
  | [], acc => acc
  | c :: rest, acc => digitsVal rest (acc * 10 + (c.toNat - 48))

/-- Model of the `number` parse function's `lexeme.parse::<f64>()` on the
digit strings the scanner produces (exact, see the `F64` conventions). -/
def parseNumber (lexeme : String) : Option Frac :=
  let cs := lexeme.data
  let intPart := cs.takeWhile Char.isDigit
  let rest := cs.dropWhile Char.isDigit
  if intPart.isEmpty then Option.none
  else
    match rest with
    | [] => some ⟨(digitsVal intPart 0 : ℕ), 1⟩
    | '.' :: fracPart =>
      if !fracPart.isEmpty && fracPart.all Char.isDigit then
        some ⟨((digitsVal intPart 0) * 10 ^ fracPart.length + digitsVal fracPart 0 : ℕ),
              (10 ^ fracPart.length : ℕ)⟩
      else Option.none
    | _ => Option.none

mutual

/-- Model of `Compiler::declaration`. -/
def declaration : ℕ → CompState → Option CompState
  | 0, _ => Option.none
  | fuel + 1, s => do
    let (isVar, s) ← matchToken fuel s .kwVar
    let s ← if isVar then variable_declaration fuel s else statement fuel s
    if s.panic_mode then synchronize fuel s else return s

/-- Model of `Compiler::statement`. -/
def statement : ℕ → CompState → Option CompState
  | 0, _ => Option.none
  | fuel + 1, s => do
    let (isPrint, s) ← matchToken fuel s .kwPrint
    if isPrint then print_statement fuel s
    else do
      let (isBrace, s) ← matchToken fuel s .leftBrace
      if isBrace then do
        let s := s.begin_scope
        let s ← block fuel s
        s.end_scope
      else expression_statement fuel s

/-- Model of `Compiler::print_statement`. -/
def print_statement : ℕ → CompState → Option CompState
  | 0, _ => Option.none
  | fuel + 1, s => do
    let s ← expression fuel s
    let s ← consume fuel s .semicolon "Expect ';' after value."
    s.emit_opcode .print

/-- Model of `Compiler::expression_statement`. -/
def expression_statement : ℕ → CompState → Option CompState
  | 0, _ => Option.none
  | fuel + 1, s => do
    let s ← expression fuel s
    let s ← consume fuel s .semicolon "Expect ';' after value."
    s.emit_opcode .pop

/-- Model of `Compiler::variable_declaration`. -/
def variable_declaration : ℕ → CompState → Option CompState
  | 0, _ => Option.none
  | fuel + 1, s => do
    let (s, global) ← parse_variable fuel s "Expect variable name."
    let (isEq, s) ← matchToken fuel s .equal
    let s ← if isEq then expression fuel s else s.emit_opcode .nilOp
    let s ← consume fuel s .semicolon "Expect ';' after variable declaration."
    s.define_variable global

/-- Model of `Compiler::block`. -/
def block : ℕ → CompState → Option CompState
  | 0, _ => Option.none
  | fuel + 1, s =>
    if !(s.check .rightBrace) && !(s.check .eof) then do
      let s ← declaration fuel s
      block fuel s
    else consume fuel s .rightBrace "Expect '\x7d' after block."

/-- Model of `Compiler::expression`. -/
def expression : ℕ → CompState → Option CompState
  | 0, _ => Option.none
  | fuel + 1, s => parse_precedence fuel s .assignment

/-- Model of `Compiler::parse_precedence`. -/
def parse_precedence : ℕ → CompState → Precedence → Option CompState
  | 0, _, _ => Option.none
  | fuel + 1, s, prec => do
    let s ← advance fuel s
    let prev ← s.previous
    match (get_parse_rule prev.tokenType).prefixFn with
    | Option.none => s.error "Expect expression."
    | some tag => do
      let canAssign := prec.ple .assignment
      let s ← runParseFn fuel tag s canAssign
      let s ← infixLoop fuel s prec canAssign
      if canAssign then do
        let (isEq, s) ← matchToken fuel s .equal
        if isEq then s.error "Invalid assignment target." else return s
      else return s

/-- The infix loop of `Compiler::parse_precedence`. -/
def infixLoop : ℕ → CompState → Precedence → Bool → Option CompState
  | 0, _, _, _ => Option.none
  | fuel + 1, s, prec, canAssign => do
    let cur ← s.current
    if prec.ple (get_parse_rule cur.tokenType).prec then do
      let s ← advance fuel s
      let prev ← s.previous
      match (get_parse_rule prev.tokenType).infixFn with
      | some tag => do
        let s ← runParseFn fuel tag s canAssign
        infixLoop fuel s prec canAssign
      | Option.none => infixLoop fuel s prec canAssign
    else return s

/-- Dispatch of the `ParseFn` table entries. -/
def runParseFn : ℕ → ParseFnTag → CompState → Bool → Option CompState
  | 0, _, _, _ => Option.none
  | fuel + 1, tag, s, canAssign =>
    match tag with
    | .grouping => do
      let s ← expression fuel s
      consume fuel s .rightParen "Expect ')' after expression."
    | .binary => binaryFn fuel s
    | .unary => unaryFn fuel s
    | .number => do
      let prev ← s.previous
      let q ← parseNumber prev.lexeme
      s.emit_constant (.number (.fin q))
    | .literal => do
      let prev ← s.previous
      match prev.tokenType with
      | .kwFalse => s.emit_opcode .falseOp
      | .kwNil => s.emit_opcode .nilOp
      | .kwTrue => s.emit_opcode .trueOp
      | _ => Option.none
    | .stringLit => do
      let prev ← s.previous
      let inner := String.mk ((prev.lexeme.data.drop 1).take (prev.lexeme.data.length - 2))
      let (ls, t) := intern_string s.vmStrings inner
      CompState.emit_constant { s with vmStrings := t } (.obj (.str ls))
    | .variableRef => do
      let prev ← s.previous
      named_variable fuel s prev canAssign

/-- Model of the free function `binary`. -/
def binaryFn : ℕ → CompState → Option CompState
  | 0, _ => Option.none
  | fuel + 1, s => do
    let prev ← s.previous
    let operatorType := prev.tokenType
    let precedence ← (get_parse_rule operatorType).prec.higher
    let s ← parse_precedence fuel s precedence
    match operatorType with
    | .plus => s.emit_opcode .add
    | .minus => s.emit_opcode .subtract
    | .star => s.emit_opcode .multiply
    | .slash => s.emit_opcode .divide
    | .bangEqual => s.emit_opcodes .equal .notOp
    | .equalEqual => s.emit_opcode .equal
    | .greater => s.emit_opcode .greater
    | .greaterEqual => s.emit_opcodes .less .notOp
    | .less => s.emit_opcode .less
    | .lessEqual => s.emit_opcodes .greater .notOp
    | _ => Option.none

/-- Model of the free function `unary`. -/
def unaryFn : ℕ → CompState → Option CompState
  | 0, _ => Option.none
  | fuel + 1, s => do
    let prev ← s.previous
    let operatorType := prev.tokenType
    let s ← parse_precedence fuel s .unary
    match operatorType with
    | .minus => s.emit_opcode .negate
    | .bang => s.emit_opcode .notOp
    | _ => return s

/-- Model of `Compiler::named_variable`. -/
def named_variable : ℕ → CompState → Token → Bool → Option CompState
  | 0, _, _, _ => Option.none
  | fuel + 1, s, name, canAssign => do
    let r : Sum CompState (CompState × ℕ × OpCode × OpCode) ←
      match s.locals.resolve_local name with
      | .error .uninitialized =>
        (s.error "Can't read local variable in its own initializer.").map Sum.inl
      | .ok arg => pure (Sum.inr (s, arg, OpCode.getLocal, OpCode.setLocal))
      | .error .notFound =>
        (s.identifier_constant name).map
          (fun p => Sum.inr (p.1, p.2, OpCode.getGlobal, OpCode.setGlobal))
    match r with
    | Sum.inl s => return s
    | Sum.inr (s, arg, getOp, setOp) => do
      let (isEq, s) ←
        if canAssign then matchToken fuel s .equal else pure (false, s)
      if canAssign && isEq then do
        let s ← expression fuel s
        let s ← s.emit_opcode setOp
        s.emit_byte arg
      else do
        let s ← s.emit_opcode getOp
        s.emit_byte arg

end

/-- The top-level declaration loop of `Compiler::compile`. -/
def compileLoop : ℕ → CompState → Option CompState
  | 0, _ => Option.none
  | fuel + 1, s => do
    let (isEof, s) ← matchToken fuel s .eof
    if isEof then return s
    else do
      let s ← declaration fuel s
      compileLoop fuel s

/-- Model of `Compiler::compile`: on success the chunk; always the updated
interning table (the borrowed VM) and the compile diagnostics. -/
def compile (fuel : ℕ) (strings : InternTable) (source : String) :
    Option (Except Unit Chunk × InternTable × List String) := do
  let s := CompState.new strings source
  let s ← advance fuel s
  let s ← compileLoop fuel s
  let s ← s.emit_return
  if s.had_error then return (.error (), s.vmStrings, s.cerr)
  else return (.ok s.compiling_chunk, s.vmStrings, s.cerr)

/-- One `compile`-then-`interpret` session on a fresh VM, as the driver runs
one source (the compiler borrows the VM's interning table). -/
def runSource (fuel : ℕ) (source : String) :
    Option (Except (List String) (RunOut × VmState)) := do
  let vm := VmState.new
  let r ← compile fuel vm.strings source
  match r with
  | (.error _, _, cerr) => return .error cerr
  | (.ok chunk, strs, _) => do
    let out ← interpret fuel { vm with strings := strs } chunk
    return .ok out

/-!
Definitions supporting the claim theorems (counterexample states,
invariants, and the staged states of the concrete C7 pipeline).
-/

/-- Chunks reachable from `Chunk::new` by the chunk operations. -/
inductive ChunkReachable : Chunk → Prop
  | new : ChunkReachable Chunk.new
  | write_byte : ∀ c b l, ChunkReachable c → ChunkReachable (c.write_byte b l)
  | write_opcode : ∀ c op l, ChunkReachable c → ChunkReachable (c.write_opcode op l)
  | add_constant : ∀ c v, ChunkReachable c → ChunkReachable (c.add_constant v).1

/-- Well-formedness of the interning table: every entry's canonical string
carries the contents it is keyed by and an allocation id below the counter,
and entries are keyed by distinct contents with distinct allocations. -/
def InternWF (t : InternTable) : Prop :=
  (∀ p ∈ t.entries, p.2.string = p.1 ∧ p.2.allocId < t.nextId) ∧
  (∀ p ∈ t.entries, ∀ q ∈ t.entries, p.1 = q.1 ∨ p.2.allocId = q.2.allocId → p = q)

/-- A compiler state as reached just before the inner `end_scope` of
`{ var a = 1; { var b = 2; } print a; }`: local `a` was declared in the
enclosing scope (depth 1), local `b` in the scope being closed (depth 2). -/
def endScopeState : CompState :=
  ⟨Scanner.new "", Option.none, some ⟨.rightBrace, "\x7d", 1⟩, false, false, Chunk.new,
   ⟨[⟨⟨.identifier, "b", 1⟩, some 2⟩, ⟨⟨.identifier, "a", 1⟩, some 1⟩], 2⟩,
   InternTable.empty, []⟩

/-- The compiler state in which `synchronize` is entered while compiling the
source `+ 1;`: the `Expect expression.` error at `+` set panic mode with
`previous = +` and `current = 1`. -/
def synchronizeStuckState : CompState :=
  ⟨⟨"+ 1;".data, ";".data, 1⟩, some ⟨.number, "1", 1⟩, some ⟨.plus, "+", 1⟩,
   true, true, Chunk.new, Locals.new, InternTable.empty,
   ["[line 1] Error at +: Expect expression."]⟩

/-- The chunk compiled from `print 0 / 0 > 1;` up to its comparison: pushes
`0`, `0`, divides (IEEE: `0/0 = NaN`), pushes `1`, compares with `Greater`. -/
def nanCmpChunk : Chunk :=
  ⟨[1, 0, 1, 0, 6, 1, 1, 12, 0],
   [.number (.fin ⟨0, 1⟩), .number (.fin ⟨1, 1⟩)],
   [1, 1, 1, 1, 1, 1, 1, 1, 1]⟩

/-- The stderr/globals observations guaranteed by a failing instruction: the
chunk and globals are those of the pre-step state, and stderr gains exactly
the error message and the `[line L] in script` line, with `L` read from the
line table at `ip - 1`. -/
def FailFrame (s s' : VmState) : Prop :=
  s'.chunk = s.chunk ∧ s'.globals = s.globals ∧
  ∃ msg L, s'.chunk.lines.get? (s'.ip - 1) = some L ∧
    s'.stderrSink = s.stderrSink ++ [msg, "[line " ++ natToString L ++ "] in script"]

/-- One successful (continuing) interpreter step. -/
def StepNext (x y : VmState) : Prop := step x = some (.next y)

/-- The chunk of `var x = 1; <error>`: defines global `x`, then fails on
negating a boolean. -/
def defineThenFailChunk : Chunk :=
  ⟨[1, 1, 16, 0, 8, 2, 0],
   [.obj (.str (LoxString.fromRc "x" 0)), .number (.fin ⟨1, 1⟩)],
   [1, 1, 1, 1, 1, 1, 1]⟩

/-- The C7 source program. -/
def src7 : String := "print 1 + 2 * 3;"

/-- The compiler states traversed while compiling `src7` (in order). -/
def c7s0 : CompState := CompState.new InternTable.empty src7

def c7s1 : CompState := (advance 200 c7s0).getD c7s0

def c7s2 : CompState := ((matchToken 197 c7s1 .kwPrint).getD (false, c7s0)).2

def c7s3 : CompState := (advance 194 c7s2).getD c7s0

def c7s4 : CompState := (runParseFn 194 .number c7s3 true).getD c7s0

def c7s5 : CompState := (advance 193 c7s4).getD c7s0

def c7s6 : CompState := (advance 190 c7s5).getD c7s0

def c7s7 : CompState := (runParseFn 190 .number c7s6 false).getD c7s0

def c7s8 : CompState := (advance 189 c7s7).getD c7s0

def c7s10 : CompState := (parse_precedence 187 c7s8 .unary).getD c7s0

def c7s11 : CompState := (c7s10.emit_opcode .multiply).getD c7s0

def c7s12 : CompState := (c7s11.emit_opcode .add).getD c7s0

def c7s13 : CompState :=
  (consume 196 c7s12 .semicolon "Expect ';' after value.").getD c7s0

def c7s14 : CompState := (c7s13.emit_opcode .print).getD c7s0

def c7s15 : CompState := ((matchToken 198 c7s14 .eof).getD (false, c7s0)).2

def c7s16 : CompState := (c7s15.emit_return).getD c7s0

/-- The VM state after interpreting the compiled chunk. -/
def c7vmEnd : VmState :=
  ((interpret 200 { VmState.new with strings := c7s16.vmStrings }
    c7s16.compiling_chunk).getD (.failure, VmState.new)).2

/-!
Theorems settling the claims C1..C10, with their helper lemmas.
-/

/-- C9: a newly created chunk has `len(code) = len(lines)`; `write_byte`,
`write_opcode` and `add_constant` each preserve the equality; hence every
chunk reachable by chunk operations satisfies it — one line-table entry per
code byte. -/
theorem chunk_code_lines_parallel :
    (Chunk.new.code.length = Chunk.new.lines.length) ∧
    (∀ (c : Chunk) (b l : ℕ), c.code.length = c.lines.length →
      (c.write_byte b l).code.length = (c.write_byte b l).lines.length) ∧
    (∀ (c : Chunk) (op : OpCode) (l : ℕ), c.code.length = c.lines.length →
      (c.write_opcode op l).code.length = (c.write_opcode op l).lines.length) ∧
    (∀ (c : Chunk) (v : Value), c.code.length = c.lines.length →
      (c.add_constant v).1.code.length = (c.add_constant v).1.lines.length) ∧
    (∀ c, ChunkReachable c → c.code.length = c.lines.length) := by
  refine ⟨rfl, ?_, ?_, ?_, ?_⟩
  · intro c b l h
    simp [Chunk.write_byte, h]
  · intro c op l h
    simp [Chunk.write_opcode, Chunk.write_byte, h]
  · intro c v h
    simpa [Chunk.add_constant] using h
  · intro c h
    induction h with
    | new => rfl
    | write_byte c b l _ ih => simp [Chunk.write_byte, ih]
    | write_opcode c op l _ ih => simp [Chunk.write_opcode, Chunk.write_byte, ih]
    | add_constant c v _ ih => simpa [Chunk.add_constant] using ih

/-- Witness for C9 at concrete inputs. -/
theorem chunk_code_lines_parallel_witness :
    ((Chunk.new.write_byte 7 1).code.length = (Chunk.new.write_byte 7 1).lines.length) ∧
    ((Chunk.new.add_constant .nil).1.code.length =
      (Chunk.new.add_constant .nil).1.lines.length) ∧
    ((Chunk.new.write_opcode .ret 2).code.length =
      (Chunk.new.write_opcode .ret 2).lines.length) := by
  refine ⟨chunk_code_lines_parallel.2.1 Chunk.new 7 1 (by decide),
          chunk_code_lines_parallel.2.2.2.1 Chunk.new .nil (by decide),
          chunk_code_lines_parallel.2.2.1 Chunk.new .ret 2 (by decide)⟩

theorem iLookup_mem {es : List (String × LoxString)} {k : String} {v : LoxString}
    (h : iLookup es k = some v) : (k, v) ∈ es := by
  induction es with
  | nil => simp [iLookup] at h
  | cons p rest ih =>
    rw [iLookup] at h
    split at h
    · rename_i hk
      cases h
      have hpk : (k, p.2) = p := by
        cases p
        simp at hk
        simp [hk]
      rw [hpk]
      exact List.mem_cons_self _ _
    · exact List.mem_cons_of_mem _ (ih h)

theorem iLookup_none {es : List (String × LoxString)} {k : String}
    (h : iLookup es k = none) : ∀ p ∈ es, p.1 ≠ k := by
  induction es with
  | nil => simp
  | cons p rest ih =>
    rw [iLookup] at h
    split at h
    · cases h
    · rename_i hk
      intro q hq
      rcases List.mem_cons.1 hq with hq | hq
      · rw [hq]; exact hk
      · exact ih h q hq

theorem iLookup_append_self {es : List (String × LoxString)} {k : String}
    (h : iLookup es k = none) (v : LoxString) :
    iLookup (es ++ [(k, v)]) k = some v := by
  induction es with
  | nil => simp [iLookup]
  | cons p rest ih =>
    rw [iLookup] at h
    split at h
    · cases h
    · rename_i hk
      rw [List.cons_append, iLookup, if_neg hk]
      exact ih h

/-- The interning invariant is preserved by `intern_string`, and the result
is an entry of the new table. -/
theorem intern_string_wf {t : InternTable} (hwf : InternWF t) (s : String) :
    InternWF (intern_string t s).2 ∧
    (s, (intern_string t s).1) ∈ (intern_string t s).2.entries ∧
    (intern_string t s).1.string = s := by
  unfold intern_string
  cases hl : iLookup t.entries s with
  | some ls =>
    have hm := iLookup_mem hl
    exact ⟨hwf, hm, (hwf.1 _ hm).1⟩
  | none =>
    refine ⟨⟨?_, ?_⟩, ?_, rfl⟩
    · intro p hp
      rcases List.mem_append.1 hp with hp | hp
      · exact ⟨(hwf.1 p hp).1, Nat.lt_succ_of_lt (hwf.1 p hp).2⟩
      · simp at hp
        subst hp
        exact ⟨rfl, Nat.lt_succ_self _⟩
    · intro p hp q hq hpq
      rcases List.mem_append.1 hp with hp | hp <;>
        rcases List.mem_append.1 hq with hq | hq
      · exact hwf.2 p hp q hq hpq
      · simp at hq
        subst hq
        rcases hpq with hpq | hpq
        · exact absurd hpq (iLookup_none hl p hp)
        · exact absurd hpq (Nat.ne_of_lt (hwf.1 p hp).2)
      · simp at hp
        subst hp
        rcases hpq with hpq | hpq
        · exact absurd hpq.symm (iLookup_none hl q hq)
        · exact absurd hpq.symm (Nat.ne_of_lt (hwf.1 q hq).2)
      · simp at hp hq
        rw [hp, hq]
    · simp

/-- C6: over any well-formed interning table, interning `s` and then `t`
yields `LoxString`s that compare equal (pointer identity of the canonical
allocations) exactly when `s` and `t` are byte-equal — and byte-equal
contents receive the very same canonical `LoxString`.  Well-formedness (one
canonical allocation per distinct contents) is preserved by both calls. -/
theorem intern_string_ptrEq_iff_eq {t : InternTable} (hwf : InternWF t)
    (s u : String) (ls lu : LoxString) (t1 t2 : InternTable)
    (hs : intern_string t s = (ls, t1)) (hu : intern_string t1 u = (lu, t2)) :
    (ls.ptrEq lu = true ↔ s = u) ∧ (s = u → ls = lu) ∧
    InternWF t1 ∧ InternWF t2 := by
  have h1 := intern_string_wf hwf s
  rw [hs] at h1
  have h2 := intern_string_wf h1.1 u
  rw [hu] at h2
  have key : ls.ptrEq lu = true ↔ ls = lu := by
    constructor
    · intro h
      have hid : ls.allocId = lu.allocId := by
        simpa [LoxString.ptrEq] using h
      -- both appear in t2: ls survives from t1 into t2
      have hls2 : (s, ls) ∈ t2.entries := by
        have := h1.2.1
        -- t2 is t1 or t1 with one appended entry
        unfold intern_string at hu
        cases hl : iLookup t1.entries u with
        | some v => rw [hl] at hu; cases hu; exact this
        | none =>
          rw [hl] at hu
          cases hu
          exact List.mem_append.2 (Or.inl this)
      have := h2.1.2 (s, ls) hls2 (u, lu) h2.2.1 (Or.inr hid)
      cases this
      rfl
    · intro h
      rw [h, LoxString.ptrEq]
      exact beq_self_eq_true _
  have same : s = u → ls = lu := by
    intro h
    subst h
    have hls2 : (s, ls) ∈ t2.entries := by
      unfold intern_string at hu
      cases hl : iLookup t1.entries s with
      | some v => rw [hl] at hu; cases hu; exact h1.2.1
      | none => rw [hl] at hu; cases hu; exact List.mem_append.2 (Or.inl h1.2.1)
    exact congrArg Prod.snd (h2.1.2 (s, ls) hls2 (s, lu) h2.2.1 (Or.inl rfl))
  refine ⟨⟨fun h => ?_, fun h => ?_⟩, same, h1.1, h2.1⟩
  · have hlu := h2.2.1
    have hls2 : (s, ls) ∈ t2.entries := by
      unfold intern_string at hu
      cases hl : iLookup t1.entries u with
      | some v => rw [hl] at hu; cases hu; exact h1.2.1
      | none => rw [hl] at hu; cases hu; exact List.mem_append.2 (Or.inl h1.2.1)
    have hid : ls.allocId = lu.allocId := by simpa [LoxString.ptrEq] using h
    have := h2.1.2 (s, ls) hls2 (u, lu) hlu (Or.inr hid)
    exact congrArg Prod.fst this
  · rw [same h, LoxString.ptrEq]
    exact beq_self_eq_true _

/-- Witness for C6: interning `"ab"` and then `"ab"` on the empty table gives
pointer-equal results; interning `"ab"` then `"cd"` gives pointer-distinct
results. -/
theorem intern_string_ptrEq_iff_eq_witness :
    ((LoxString.fromRc "ab" 0).ptrEq (LoxString.fromRc "ab" 0) = true ↔ ("ab" : String) = "ab") ∧
    ((LoxString.fromRc "ab" 0).ptrEq (LoxString.fromRc "cd" 1) = true ↔ ("ab" : String) = "cd") := by
  have hwf : InternWF InternTable.empty := by
    constructor
    · intro p hp; simp [InternTable.empty] at hp
    · intro p hp; simp [InternTable.empty] at hp
  constructor
  · exact (intern_string_ptrEq_iff_eq hwf "ab" "ab" (LoxString.fromRc "ab" 0)
      (LoxString.fromRc "ab" 0) ⟨[("ab", LoxString.fromRc "ab" 0)], 1⟩
      ⟨[("ab", LoxString.fromRc "ab" 0)], 1⟩ (by decide) (by decide)).1
  · exact (intern_string_ptrEq_iff_eq hwf "ab" "cd" (LoxString.fromRc "ab" 0)
      (LoxString.fromRc "cd" 1) ⟨[("ab", LoxString.fromRc "ab" 0)], 1⟩
      ⟨[("ab", LoxString.fromRc "ab" 0), ("cd", LoxString.fromRc "cd" 1)], 2⟩
      (by decide) (by decide)).1

/-- C1 (the code at the failing input): closing the inner scope from depth 2
pops BOTH locals — `b` (depth 2) and also `a`, although `a`'s depth 1 equals
the new scope depth and `a` belongs to the still-open enclosing scope — and
emits two `Pop` opcodes.  The loop keeps popping while the top local's depth
is `≥` the new scope depth instead of `>`, contradicting its own comment
(`Stop if we encounter a parent scope`) and the specification. -/
theorem end_scope_pops_enclosing_scope_local :
    (CompState.end_scope endScopeState).map
      (fun s => (s.locals.locals, s.locals.scope_depth, s.compiling_chunk.code)) =
      some ([], 1, [OpCode.pop.toByte, OpCode.pop.toByte]) := by decide

/-- Any state whose `current` token is a number and whose `previous` token is
not a semicolon nor a statement starter traps `synchronize`'s loop: the loop
body advances no token, so the state never changes. -/
theorem synchronizeLoop_stuck (fuel : ℕ) (s : CompState)
    (hcur : s.current = some ⟨.number, "1", 1⟩)
    (hprev : s.previous = some ⟨.plus, "+", 1⟩) :
    synchronizeLoop fuel s = none := by
  induction fuel with
  | zero => rfl
  | succ fuel ih =>
    rw [synchronizeLoop]
    simp only [CompState.check, CompState.check_previous, hcur, hprev, Option.elim]
    exact ih

/-- C2 (the code at the failing input): `synchronize`, entered with
`previous = +` and `current = 1` (as happens for the source `+ 1;`), never
returns, whatever fuel it is given: the skipping loop's body does not
advance past any token (the `advance` call sits after the loop instead of
inside it), so the loop state never changes. -/
theorem synchronize_diverges :
    ∀ fuel, synchronize fuel synchronizeStuckState = none := by
  intro fuel
  exact synchronizeLoop_stuck fuel _ rfl rfl

theorem gInsert_fst (g : Globals) (k : String) (v : Value) :
    (gInsert g k v).1 = gLookup g k := by
  induction g with
  | nil => simp [gInsert, gLookup]
  | cons p rest ih =>
    rw [gInsert, gLookup]
    split
    · rfl
    · simpa using ih

theorem gLookup_gInsert_self (g : Globals) (k : String) (v : Value) :
    gLookup (gInsert g k v).2 k = some v := by
  induction g with
  | nil => simp [gInsert, gLookup]
  | cons p rest ih =>
    rw [gInsert]
    split
    · simp [gLookup]
    · rename_i hk
      simpa [gLookup, hk] using ih

theorem gLookup_gInsert_other (g : Globals) (k x : String) (v : Value) (hx : x ≠ k) :
    gLookup (gInsert g k v).2 x = gLookup g x := by
  induction g with
  | nil => simp [gInsert, gLookup, Ne.symm hx]
  | cons p rest ih =>
    rw [gInsert]
    split
    · rename_i hk
      simp [gLookup, hk, Ne.symm hx]
    · cases hgi : gInsert rest k v with
      | mk old g2 =>
        rw [hgi] at ih
        simp only [hgi, gLookup]
        by_cases hpx : p.1 = x
        · simp [hpx]
        · simp [hpx]
          exact ih

theorem gRemove_gInsert_cancel (g : Globals) (k : String) (v : Value)
    (habs : gLookup g k = none) : gRemove (gInsert g k v).2 k = g := by
  induction g with
  | nil => simp [gInsert, gRemove]
  | cons p rest ih =>
    rw [gLookup] at habs
    split at habs
    · cases habs
    · rename_i hk
      rw [gInsert]
      rw [if_neg hk]
      simp only [gRemove, if_neg hk]
      rw [ih habs]

theorem F64_pcmp_none_iff (x y : F64) :
    x.pcmp y = none ↔ x = .nan ∨ y = .nan := by
  cases x <;> cases y <;> simp [F64.pcmp]

theorem Value_pcmp_none_iff (v w : Value) :
    v.pcmp w = none ↔
      ¬∃ x y, v = .number x ∧ w = .number y ∧ x ≠ F64.nan ∧ y ≠ F64.nan := by
  cases v <;> cases w <;> simp [Value.pcmp, F64_pcmp_none_iff]
  tauto

/-- C4 (amended): `comparison_binary_op` (the `Greater`/`Less` arms) pops
both operands and fails with `Operands must be numbers.` exactly when
`PartialOrd for Value` yields no ordering — that is, when the operands are
not both `Number`s OR when a NaN operand makes the numeric comparison
undefined; whenever an ordering exists it pushes the Bool comparison
result. -/
theorem comparison_binary_op_spec (s : VmState) (ord : Ordering) (a b : Value)
    (rest : List Value) (L : ℕ)
    (hstack : s.stack = b :: a :: rest)
    (hline : s.chunk.lines.get? (s.ip - 1) = some L) :
    (∀ v w : Value, v.pcmp w = none ↔
      ¬∃ x y, v = .number x ∧ w = .number y ∧ x ≠ F64.nan ∧ y ≠ F64.nan) ∧
    (∀ o, a.pcmp b = some o →
      comparison_binary_op s ord =
        some (.next { s with stack := .bool (o == ord) :: rest })) ∧
    (a.pcmp b = none →
      comparison_binary_op s ord =
        some (.fail { s with
          stack := rest
          stderrSink := s.stderrSink ++
            ["Operands must be numbers.",
             "[line " ++ natToString L ++ "] in script"] })) := by
  refine ⟨Value_pcmp_none_iff, ?_, ?_⟩
  · intro o ho
    rw [comparison_binary_op, hstack]
    simp [ho]
  · intro ho
    have hline2 : s.chunk.lines[s.ip - 1]? = some L := by
      rw [← List.get?_eq_getElem?]
      exact hline
    rw [comparison_binary_op, hstack]
    simp [ho, VmState.runtime_error, hline2]

/-- Witness for C4 at concrete inputs: `3 > 1` pushes `true`, and
`nil > 1` fails. -/
theorem comparison_binary_op_spec_witness :
    (comparison_binary_op
        ⟨⟨[12], [], [7]⟩, 1, [.number (.fin ⟨1, 1⟩), .number (.fin ⟨3, 1⟩)],
         .empty, [], [], []⟩ .gt =
      some (.next ⟨⟨[12], [], [7]⟩, 1, [.bool true], .empty, [], [], []⟩)) ∧
    (comparison_binary_op
        ⟨⟨[12], [], [7]⟩, 1, [.number (.fin ⟨1, 1⟩), .nil], .empty, [], [], []⟩ .gt =
      some (.fail ⟨⟨[12], [], [7]⟩, 1, [], .empty, [], [],
        ["Operands must be numbers.", "[line 7] in script"]⟩)) := by
  constructor
  · have h := (comparison_binary_op_spec
      ⟨⟨[12], [], [7]⟩, 1, [.number (.fin ⟨1, 1⟩), .number (.fin ⟨3, 1⟩)],
       .empty, [], [], []⟩ .gt (.number (.fin ⟨3, 1⟩)) (.number (.fin ⟨1, 1⟩))
      [] 7 rfl rfl).2.1 .gt (by decide)
    simpa using h
  · have h := (comparison_binary_op_spec
      ⟨⟨[12], [], [7]⟩, 1, [.number (.fin ⟨1, 1⟩), .nil], .empty, [], [], []⟩
      .gt .nil (.number (.fin ⟨1, 1⟩)) [] 7 rfl rfl).2.2 (by decide)
    simpa using h

/-- C4 (counterexample to the claim as stated): dividing `0` by `0` yields
NaN, and the `Greater` comparison of the two NUMBER values `NaN` and `1`
raises `Operands must be numbers.` — the error is raised even though both
popped operands are `Number`s, refuting the claimed `if and only if`. -/
theorem comparison_error_despite_number_operands :
    F64.div (.fin ⟨0, 1⟩) (.fin ⟨0, 1⟩) = .nan ∧
    Value.pcmp (.number F64.nan) (.number (.fin ⟨1, 1⟩)) = none ∧
    (runFuel 10 ⟨nanCmpChunk, 0, [], .empty, [], [], []⟩).map
      (fun p => (p.1, p.2.stack, p.2.stderrSink)) =
      some (.failure, [],
        ["Operands must be numbers.", "[line 1] in script"]) := by
  refine ⟨by decide, by decide, by decide⟩

/-- C5: executing `SetGlobal k` with `constants[k]` the interned name `nm`:
when `nm` is present in the globals table the instruction succeeds, the
global is updated to the top-of-stack value, and that value is left on the
stack (the stack field is untouched); when `nm` is absent the instruction
fails with `Undefined variable 'nm'.` and the globals table of the failing
state is exactly the original table (the transient insert is removed
again). -/
theorem set_global_spec (s : VmState) (k : ℕ) (nm : LoxString) (v : Value)
    (rest : List Value) (L : ℕ)
    (hcode : s.chunk.code.get? s.ip = some OpCode.setGlobal.toByte)
    (hk : s.chunk.code.get? (s.ip + 1) = some k)
    (hconst : s.chunk.constants.get? k = some (.obj (.str nm)))
    (hstack : s.stack = v :: rest)
    (hline : s.chunk.lines.get? (s.ip + 1) = some L) :
    (∀ w, gLookup s.globals nm.string = some w →
      step s = some (.next { s with
        ip := s.ip + 2
        globals := (gInsert s.globals nm.string v).2 }) ∧
      gLookup (gInsert s.globals nm.string v).2 nm.string = some v ∧
      (∀ x, x ≠ nm.string →
        gLookup (gInsert s.globals nm.string v).2 x = gLookup s.globals x)) ∧
    (gLookup s.globals nm.string = none →
      step s = some (.fail { s with
        ip := s.ip + 2
        stack := rest
        stderrSink := s.stderrSink ++
          ["Undefined variable '" ++ nm.string ++ "'.",
           "[line " ++ natToString L ++ "] in script"] })) := by
  have hfb : OpCode.fromByte OpCode.setGlobal.toByte = some OpCode.setGlobal := rfl
  have hline2 : s.chunk.lines[s.ip + 1]? = some L := by
    rw [← List.get?_eq_getElem?]
    exact hline
  have hk2 : s.chunk.code[s.ip + 1]? = some k := by
    rw [← List.get?_eq_getElem?]
    exact hk
  have hcode2 : s.chunk.code[s.ip]? = some OpCode.setGlobal.toByte := by
    rw [← List.get?_eq_getElem?]
    exact hcode
  have hconst2 : s.chunk.constants[k]? = some (Value.obj (.str nm)) := by
    rw [← List.get?_eq_getElem?]
    exact hconst
  constructor
  · intro w hw
    refine ⟨?_, gLookup_gInsert_self _ _ _, fun x hx => gLookup_gInsert_other _ _ _ _ hx⟩
    rw [step]
    simp [VmState.read_byte, hcode2, hfb, VmState.read_string, VmState.read_constant,
          hk2, hconst2, Value.as_string, Value.as_object, Object.as_string,
          VmState.peek, hstack, gInsert_fst, hw]
  · intro habs
    rw [step]
    simp [VmState.read_byte, hcode2, hfb, VmState.read_string, VmState.read_constant,
          hk2, hconst2, Value.as_string, Value.as_object, Object.as_string,
          VmState.peek, hstack, gInsert_fst, habs, VmState.runtime_error, hline2,
          gRemove_gInsert_cancel _ _ _ habs]

/-- C8 (amended): executing `Equal` then `Not` (the sequence the compiler's
`binary` emits for `!=`) pushes exactly the Bool negation of `a == b`, for
ALL values; `binary` on a `!=` operator parses its right operand one level
above `Equality` and then emits `Equal` followed by `Not` (two appended code
bytes); values of different variants never compare equal; within a variant,
equality compares the payloads — structurally for Bool and Nil, by canonical
pointer for strings, and by IEEE equality for numbers, under which every
non-NaN number equals itself (but NaN does not, see the counterexample). -/
theorem bang_equal_negates_equality :
    (∀ (s : VmState) (a b : Value) (rest : List Value),
      s.chunk.code.get? s.ip = some OpCode.equal.toByte →
      s.chunk.code.get? (s.ip + 1) = some OpCode.notOp.toByte →
      s.stack = b :: a :: rest →
      ∃ s1, step s = some (.next s1) ∧ s1.stack = .bool (a.peq b) :: rest ∧
        step s1 = some (.next { s1 with
          ip := s1.ip + 1
          stack := .bool (!(a.peq b)) :: rest })) ∧
    (∀ (fuel : ℕ) (s : CompState) (tok : Token),
      s.previous = some tok → tok.tokenType = .bangEqual →
      binaryFn (fuel + 1) s =
        (parse_precedence fuel s .comparison).bind
          (fun s2 => s2.emit_opcodes .equal .notOp)) ∧
    (∀ (s : CompState) (prev : Token) (op1 op2 : OpCode) (s2 : CompState),
      s.previous = some prev → s.emit_opcodes op1 op2 = some s2 →
      s2.compiling_chunk.code =
        s.compiling_chunk.code ++ [op1.toByte, op2.toByte]) ∧
    (∀ a b : Value, a.discr ≠ b.discr → a.peq b = false) ∧
    (∀ p q : Bool, (Value.bool p).peq (.bool q) = (p == q)) ∧
    (Value.nil.peq .nil = true) ∧
    (∀ x : F64, x ≠ .nan → (Value.number x).peq (.number x) = true) ∧
    (∀ x y : F64, (Value.number x).peq (.number y) = x.ieeeEq y) ∧
    (∀ a b : LoxString, (Value.obj (.str a)).peq (.obj (.str b)) = a.ptrEq b) := by
  refine ⟨?_, ?_, ?_, ?_, ?_, rfl, ?_, fun x y => rfl, fun a b => rfl⟩
  · intro s a b rest hc1 hc2 hstack
    have hc1g : s.chunk.code[s.ip]? = some OpCode.equal.toByte := by
      rw [← List.get?_eq_getElem?]; exact hc1
    have hc2g : s.chunk.code[s.ip + 1]? = some OpCode.notOp.toByte := by
      rw [← List.get?_eq_getElem?]; exact hc2
    refine ⟨{ s with ip := s.ip + 1, stack := .bool (a.peq b) :: rest }, ?_, rfl, ?_⟩
    · rw [step]
      simp [VmState.read_byte, hc1g, hstack,
            show OpCode.fromByte OpCode.equal.toByte = some OpCode.equal from rfl]
    · rw [step]
      simp [VmState.read_byte, hc2g, Value.notVal, Value.is_falsey,
            show OpCode.fromByte OpCode.notOp.toByte = some OpCode.notOp from rfl]
  · intro fuel s tok hprev htt
    rw [binaryFn]
    simp [hprev, htt, get_parse_rule, Precedence.higher, Precedence.toU8,
          Precedence.fromU8]
  · intro s prev op1 op2 s2 hprev hemit
    simp only [CompState.emit_opcodes, CompState.emit_opcode, hprev,
               Option.some_bind, Option.bind_eq_bind] at hemit
    cases hemit
    simp [Chunk.write_opcode, Chunk.write_byte, List.append_assoc]
  · intro a b h
    cases a <;> cases b <;> simp_all [Value.peq, Value.discr]
  · intro p q
    rfl
  · intro x hx
    cases x with
    | nan => exact absurd rfl hx
    | neginf => rfl
    | posinf => rfl
    | fin q =>
      have hq : Frac.fcompare q q = Ordering.eq := by
        simp [Frac.fcompare, cmpInt]
      simp [Value.peq, F64.ieeeEq, F64.pcmp, hq]
      rfl

/-- C8 (counterexample to `structural within a variant` as stated): IEEE
equality makes `Number(NaN)` unequal to itself — two structurally identical
`Number` values that do not compare equal — and consequently the compiled
`NaN != NaN` (Equal then Not) evaluates to `true`. -/
theorem value_eq_not_reflexive_on_nan :
    (Value.number F64.nan).peq (.number F64.nan) = false ∧
    Value.notVal (.bool ((Value.number F64.nan).peq (.number F64.nan))) =
      .bool true := by decide

/-- Witness for C8 at concrete inputs: running `Equal; Not` over the stack
`[nil, nil]` pushes `false`, and `binary` after a `!=` token emits the
`Equal`/`Not` pair. -/
theorem bang_equal_negates_equality_witness :
    (∃ s1, step ⟨⟨[11, 10, 0], [], [1, 1, 1]⟩, 0, [.nil, .nil], .empty, [], [], []⟩ =
        some (.next s1) ∧
      s1.stack = [Value.bool (Value.nil.peq .nil)] ∧
      step s1 = some (.next { s1 with
        ip := s1.ip + 1
        stack := [Value.bool (!(Value.nil.peq .nil))] })) ∧
    binaryFn 1
      ⟨Scanner.new "", Option.none, some ⟨.bangEqual, "!=", 1⟩, false, false,
       Chunk.new, Locals.new, InternTable.empty, []⟩ =
      (parse_precedence 0
        ⟨Scanner.new "", Option.none, some ⟨.bangEqual, "!=", 1⟩, false, false,
         Chunk.new, Locals.new, InternTable.empty, []⟩ .comparison).bind
        (fun s2 => s2.emit_opcodes .equal .notOp) := by
  constructor
  · exact bang_equal_negates_equality.1
      ⟨⟨[11, 10, 0], [], [1, 1, 1]⟩, 0, [.nil, .nil], .empty, [], [], []⟩
      .nil .nil [] (by decide) (by decide) rfl
  · exact bang_equal_negates_equality.2.1 0
      ⟨Scanner.new "", Option.none, some ⟨.bangEqual, "!=", 1⟩, false, false,
       Chunk.new, Locals.new, InternTable.empty, []⟩
      ⟨.bangEqual, "!=", 1⟩ rfl rfl

/-- Witness for C5 at concrete inputs: with `x` bound, `SetGlobal` updates it
and leaves the value on the stack; with the table empty, it fails and the
failing state's globals are the original (empty) table. -/
theorem set_global_spec_witness :
    (step ⟨⟨[18, 0, 0], [.obj (.str (LoxString.fromRc "x" 0))], [1, 1, 1]⟩, 0,
        [.number (.fin ⟨5, 1⟩)], .empty, [("x", .nil)], [], []⟩ =
      some (.next ⟨⟨[18, 0, 0], [.obj (.str (LoxString.fromRc "x" 0))], [1, 1, 1]⟩, 2,
        [.number (.fin ⟨5, 1⟩)], .empty, [("x", .number (.fin ⟨5, 1⟩))], [], []⟩)) ∧
    (step ⟨⟨[18, 0, 0], [.obj (.str (LoxString.fromRc "x" 0))], [1, 1, 1]⟩, 0,
        [.number (.fin ⟨5, 1⟩)], .empty, [], [], []⟩ =
      some (.fail ⟨⟨[18, 0, 0], [.obj (.str (LoxString.fromRc "x" 0))], [1, 1, 1]⟩, 2,
        [], .empty, [],
        [], ["Undefined variable 'x'.", "[line 1] in script"]⟩)) := by
  constructor
  · have h := ((set_global_spec
      ⟨⟨[18, 0, 0], [.obj (.str (LoxString.fromRc "x" 0))], [1, 1, 1]⟩, 0,
       [.number (.fin ⟨5, 1⟩)], .empty, [("x", .nil)], [], []⟩
      0 (LoxString.fromRc "x" 0) (.number (.fin ⟨5, 1⟩)) [] 1
      rfl rfl (by decide) rfl rfl).1 .nil (by decide)).1
    simpa using h
  · have h := (set_global_spec
      ⟨⟨[18, 0, 0], [.obj (.str (LoxString.fromRc "x" 0))], [1, 1, 1]⟩, 0,
       [.number (.fin ⟨5, 1⟩)], .empty, [], [], []⟩
      0 (LoxString.fromRc "x" 0) (.number (.fin ⟨5, 1⟩)) [] 1
      rfl rfl (by decide) rfl rfl).2 rfl
    simpa using h

theorem runtime_error_some {s : VmState} {msg : String} {s' : VmState}
    (h : s.runtime_error msg = some s') :
    ∃ L, s.chunk.lines.get? (s.ip - 1) = some L ∧
      s' = { s with stderrSink :=
        s.stderrSink ++ [msg, "[line " ++ natToString L ++ "] in script"] } := by
  rw [VmState.runtime_error] at h
  cases hl : s.chunk.lines.get? (s.ip - 1) with
  | none => rw [hl] at h; cases h
  | some L =>
    rw [hl] at h
    cases h
    exact ⟨L, rfl, rfl⟩

theorem numeric_binary_op_next {s : VmState} {op : F64 → F64 → F64} {s' : VmState}
    (h : numeric_binary_op s op = some (.next s')) :
    s'.stderrSink = s.stderrSink ∧ s'.globals = s.globals ∧ s'.chunk = s.chunk := by
  rw [numeric_binary_op] at h
  split at h
  · cases h; exact ⟨rfl, rfl, rfl⟩
  · rw [Option.bind_eq_bind, Option.bind_eq_some] at h
    obtain ⟨s2, _, h2⟩ := h
    exact Step.noConfusion (Option.some.inj h2)
  · cases h

theorem numeric_binary_op_fail {s : VmState} {op : F64 → F64 → F64} {s' : VmState}
    (h : numeric_binary_op s op = some (.fail s')) : FailFrame s s' := by
  rw [numeric_binary_op] at h
  split at h
  · cases h
  · rw [Option.bind_eq_bind, Option.bind_eq_some] at h
    obtain ⟨s2, hre, h2⟩ := h
    obtain rfl : s2 = s' := Step.fail.inj (Option.some.inj h2)
    obtain ⟨L, hL, hs2⟩ := runtime_error_some hre
    subst hs2
    exact ⟨rfl, rfl, "Operands must be numbers.", L, hL, rfl⟩
  · cases h

theorem comparison_binary_op_next {s : VmState} {ord : Ordering} {s' : VmState}
    (h : comparison_binary_op s ord = some (.next s')) :
    s'.stderrSink = s.stderrSink ∧ s'.globals = s.globals ∧ s'.chunk = s.chunk := by
  rw [comparison_binary_op] at h
  split at h
  · split at h
    · cases h; exact ⟨rfl, rfl, rfl⟩
    · rw [Option.bind_eq_bind, Option.bind_eq_some] at h
      obtain ⟨s2, _, h2⟩ := h
      exact Step.noConfusion (Option.some.inj h2)
  · cases h

theorem comparison_binary_op_fail {s : VmState} {ord : Ordering} {s' : VmState}
    (h : comparison_binary_op s ord = some (.fail s')) : FailFrame s s' := by
  rw [comparison_binary_op] at h
  split at h
  · split at h
    · cases h
    · rw [Option.bind_eq_bind, Option.bind_eq_some] at h
      obtain ⟨s2, hre, h2⟩ := h
      obtain rfl : s2 = s' := Step.fail.inj (Option.some.inj h2)
      obtain ⟨L, hL, hs2⟩ := runtime_error_some hre
      subst hs2
      exact ⟨rfl, rfl, "Operands must be numbers.", L, hL, rfl⟩
  · cases h

theorem read_byte_some {s : VmState} {b : ℕ} {s1 : VmState}
    (h : s.read_byte = some (b, s1)) : s1 = { s with ip := s.ip + 1 } := by
  rw [VmState.read_byte] at h
  cases hc : s.chunk.code.get? s.ip with
  | none => rw [hc] at h; cases h
  | some b2 => rw [hc] at h; cases h; rfl

theorem read_constant_some {s : VmState} {v : Value} {s1 : VmState}
    (h : s.read_constant = some (v, s1)) : s1 = { s with ip := s.ip + 1 } := by
  rw [VmState.read_constant] at h
  simp only [Option.bind_eq_bind, Option.bind_eq_some] at h
  obtain ⟨⟨b, s2⟩, hrb, h⟩ := h
  obtain ⟨v2, hv, h⟩ := h
  cases h
  exact read_byte_some hrb

theorem read_string_some {s : VmState} {nm : LoxString} {s1 : VmState}
    (h : s.read_string = some (nm, s1)) : s1 = { s with ip := s.ip + 1 } := by
  rw [VmState.read_string] at h
  simp only [Option.bind_eq_bind, Option.bind_eq_some] at h
  obtain ⟨⟨v, s2⟩, hrc, h⟩ := h
  obtain ⟨nm2, hnm, h⟩ := h
  cases h
  exact read_constant_some hrc

theorem read_short_some {s : VmState} {w : ℕ} {s1 : VmState}
    (h : s.read_short = some (w, s1)) : s1 = { s with ip := s.ip + 2 } := by
  rw [VmState.read_short] at h
  cases h1 : s.chunk.code.get? s.ip with
  | none => rw [h1] at h; cases h
  | some t =>
    cases h2 : s.chunk.code.get? (s.ip + 1) with
    | none => rw [h1, h2] at h; cases h
    | some bo => rw [h1, h2] at h; cases h; rfl

/-- The frame observations of one executed instruction: a continuing
instruction writes nothing to stderr; a failing one keeps the chunk and the
globals of the pre-step state (the failed `SetGlobal` removes its transient
insertion again) and appends to stderr exactly the error message and the
`[line L] in script` diagnostic. -/
theorem step_frame {s : VmState} {r : Step} (h : step s = some r) :
    match r with
    | .next s' => s'.stderrSink = s.stderrSink
    | .done _ => True
    | .fail s' => FailFrame s s' := by
  rw [step] at h
  simp only [Option.pure_def, Option.bind_eq_bind, Option.bind_eq_some] at h
  obtain ⟨⟨b, s1A⟩, hrb, h⟩ := h
  obtain ⟨instr, hfb, h⟩ := h
  have hs1 := read_byte_some hrb
  subst hs1
  split at h
  · -- Return
    cases Option.some.inj h
    trivial
  · -- Constant
    simp only [Option.pure_def, Option.bind_eq_bind, Option.bind_eq_some] at h
    obtain ⟨⟨v, s2⟩, hrc, h⟩ := h
    have h2 := read_constant_some hrc
    subst h2
    cases Option.some.inj h
    rfl
  · -- Negate
    split at h
    · cases Option.some.inj h
      rfl
    · simp only [Option.pure_def, Option.bind_eq_bind, Option.bind_eq_some] at h
      obtain ⟨s2, hre, h2⟩ := h
      cases Option.some.inj h2
      obtain ⟨L, hL, hs2⟩ := runtime_error_some hre
      subst hs2
      exact ⟨rfl, rfl, _, L, hL, rfl⟩
    · cases h
  · -- Add
    split at h
    · cases Option.some.inj h
      rfl
    · cases Option.some.inj h
      rfl
    · simp only [Option.pure_def, Option.bind_eq_bind, Option.bind_eq_some] at h
      obtain ⟨s2, hre, h2⟩ := h
      cases Option.some.inj h2
      obtain ⟨L, hL, hs2⟩ := runtime_error_some hre
      subst hs2
      exact ⟨rfl, rfl, _, L, hL, rfl⟩
    · cases h
  · -- Subtract
    cases r with
    | next s' => exact (numeric_binary_op_next h).1
    | done s' => trivial
    | fail s' =>
      have hf := numeric_binary_op_fail h
      exact hf
  · -- Multiply
    cases r with
    | next s' => exact (numeric_binary_op_next h).1
    | done s' => trivial
    | fail s' =>
      have hf := numeric_binary_op_fail h
      exact hf
  · -- Divide
    cases r with
    | next s' => exact (numeric_binary_op_next h).1
    | done s' => trivial
    | fail s' =>
      have hf := numeric_binary_op_fail h
      exact hf
  · -- Nil
    cases Option.some.inj h
    rfl
  · -- True
    cases Option.some.inj h
    rfl
  · -- False
    cases Option.some.inj h
    rfl
  · -- Not
    split at h
    · cases Option.some.inj h
      rfl
    · cases h
  · -- Equal
    split at h
    · cases Option.some.inj h
      rfl
    · cases h
  · -- Greater
    cases r with
    | next s' => exact (comparison_binary_op_next h).1
    | done s' => trivial
    | fail s' =>
      have hf := comparison_binary_op_fail h
      exact hf
  · -- Less
    cases r with
    | next s' => exact (comparison_binary_op_next h).1
    | done s' => trivial
    | fail s' =>
      have hf := comparison_binary_op_fail h
      exact hf
  · -- Pop
    split at h
    · cases Option.some.inj h
      rfl
    · cases h
  · -- Print
    split at h
    · cases Option.some.inj h
      rfl
    · cases h
  · -- DefineGlobal
    simp only [Option.pure_def, Option.bind_eq_bind, Option.bind_eq_some] at h
    obtain ⟨⟨nm, s2⟩, hrs, h⟩ := h
    obtain ⟨v, hv, h⟩ := h
    have h2 := read_string_some hrs
    subst h2
    split at h
    · cases Option.some.inj h
      rfl
    · cases h
  · -- GetGlobal
    simp only [Option.pure_def, Option.bind_eq_bind, Option.bind_eq_some] at h
    obtain ⟨⟨nm, s2⟩, hrs, h⟩ := h
    have h2 := read_string_some hrs
    subst h2
    split at h
    · cases Option.some.inj h
      rfl
    · simp only [Option.pure_def, Option.bind_eq_bind, Option.bind_eq_some] at h
      obtain ⟨s3, hre, h2⟩ := h
      cases Option.some.inj h2
      obtain ⟨L, hL, hs3⟩ := runtime_error_some hre
      subst hs3
      exact ⟨rfl, rfl, _, L, hL, rfl⟩
  · -- SetGlobal
    simp only [Option.pure_def, Option.bind_eq_bind, Option.bind_eq_some] at h
    obtain ⟨⟨nm, s2⟩, hrs, h⟩ := h
    obtain ⟨v, hv, h⟩ := h
    have h2 := read_string_some hrs
    subst h2
    split at h
    · rename_i hnone
      split at h
      · simp only [Option.pure_def, Option.bind_eq_bind, Option.bind_eq_some] at h
        obtain ⟨s3, hre, h3⟩ := h
        cases Option.some.inj h3
        obtain ⟨L, hL, hs3⟩ := runtime_error_some hre
        subst hs3
        have habs : gLookup s.globals nm.string = none := by
          have h4 := gInsert_fst s.globals nm.string v
          rw [← h4]
          exact hnone
        have hcancel := gRemove_gInsert_cancel s.globals nm.string v habs
        exact ⟨rfl, hcancel, _, L, hL, rfl⟩
      · cases h
    · cases Option.some.inj h
      rfl
  · -- GetLocal
    simp only [Option.pure_def, Option.bind_eq_bind, Option.bind_eq_some] at h
    obtain ⟨⟨slot, s2⟩, hrb2, h⟩ := h
    have h2 := read_byte_some hrb2
    subst h2
    split at h
    · cases Option.some.inj h
      rfl
    · cases h
  · -- SetLocal
    simp only [Option.pure_def, Option.bind_eq_bind, Option.bind_eq_some] at h
    obtain ⟨⟨slot, s2⟩, hrb2, h⟩ := h
    obtain ⟨v, hv, h⟩ := h
    have h2 := read_byte_some hrb2
    subst h2
    split at h
    · cases Option.some.inj h
      rfl
    · cases h
  · -- JumpIfFalse
    simp only [Option.pure_def, Option.bind_eq_bind, Option.bind_eq_some] at h
    obtain ⟨⟨off, s2⟩, hrs2, h⟩ := h
    obtain ⟨v, hv, h⟩ := h
    have h2 := read_short_some hrs2
    subst h2
    split at h
    · cases Option.some.inj h
      rfl
    · cases Option.some.inj h
      rfl
  · -- Jump
    simp only [Option.pure_def, Option.bind_eq_bind, Option.bind_eq_some] at h
    obtain ⟨⟨off, s2⟩, hrs2, h⟩ := h
    have h2 := read_short_some hrs2
    subst h2
    cases Option.some.inj h
    rfl
  · -- Loop
    simp only [Option.pure_def, Option.bind_eq_bind, Option.bind_eq_some] at h
    obtain ⟨⟨off, s2⟩, hrs2, h⟩ := h
    have h2 := read_short_some hrs2
    subst h2
    split at h
    · cases Option.some.inj h
      rfl
    · cases h

theorem runFuel_failure_stderr :
    ∀ (fuel : ℕ) (s s' : VmState), runFuel fuel s = some (.failure, s') →
      ∃ msg L, s'.chunk.lines.get? (s'.ip - 1) = some L ∧
        s'.stderrSink = s.stderrSink ++
          [msg, "[line " ++ natToString L ++ "] in script"] := by
  intro fuel
  induction fuel with
  | zero => intro s s' h; cases h
  | succ fuel ih =>
    intro s s' h
    rw [runFuel] at h
    cases hstep : step s with
    | none => rw [hstep] at h; cases h
    | some st =>
      rw [hstep] at h
      cases st with
      | done s2 => simp at h
      | fail s2 =>
        simp only [Option.some.injEq, Prod.mk.injEq] at h
        obtain ⟨-, rfl⟩ := h
        have hf : FailFrame s s2 := step_frame hstep
        obtain ⟨hc, hg, msg, L, hL, hs⟩ := hf
        exact ⟨msg, L, hL, hs⟩
      | next s2 =>
        obtain ⟨msg, L, hL, hs⟩ := ih s2 s' h
        have he : s2.stderrSink = s.stderrSink := step_frame hstep
        exact ⟨msg, L, hL, by rw [hs, he]⟩

/-- C3 (amended): whenever interpretation ends in a runtime error, the VM has
written to standard error exactly the error message followed by
`[line L] in script` with `L = chunk.lines[ip - 1]` (at the failing
instruction pointer), and returns the runtime-error status.  The value stack
is NOT reset — `reset_stack` is never invoked — see the counterexample. -/
theorem runtime_error_reporting (fuel : ℕ) (vm : VmState) (c : Chunk) (s' : VmState)
    (h : interpret fuel vm c = some (.failure, s')) :
    ∃ msg L, s'.chunk.lines.get? (s'.ip - 1) = some L ∧
      s'.stderrSink = vm.stderrSink ++
        [msg, "[line " ++ natToString L ++ "] in script"] :=
  runFuel_failure_stderr fuel (interpretSetup vm c) s' h

/-- C3 (counterexample to the claim as stated): interpreting the chunk
`[True, Negate, Return]` ends in a runtime error, and afterwards the VM's
value stack still holds `Bool(true)` — it is not reset to empty
(`reset_stack` is defined but never called). -/
theorem runtime_error_stack_not_reset :
    (interpret 10 VmState.new ⟨[8, 2, 0], [], [1, 1, 1]⟩).map
      (fun p => (p.1, p.2.stack, p.2.stderrSink)) =
      some (.failure, [Value.bool true],
        ["Operand must be a number.", "[line 1] in script"]) ∧
    ([Value.bool true] : List Value) ≠ [] := by
  exact ⟨by decide, by decide⟩

/-- Witness for C3 at a concrete input. -/
theorem runtime_error_reporting_witness :
    ∃ msg L,
      (⟨⟨[8, 2, 0], [], [1, 1, 1]⟩, 2, [.bool true], .empty, [], [],
        ["Operand must be a number.", "[line 1] in script"]⟩ :
          VmState).chunk.lines.get?
        ((⟨⟨[8, 2, 0], [], [1, 1, 1]⟩, 2, [.bool true], .empty, [], [],
          ["Operand must be a number.", "[line 1] in script"]⟩ : VmState).ip - 1) =
          some L ∧
      (⟨⟨[8, 2, 0], [], [1, 1, 1]⟩, 2, [.bool true], .empty, [], [],
        ["Operand must be a number.", "[line 1] in script"]⟩ :
          VmState).stderrSink =
        VmState.new.stderrSink ++ [msg, "[line " ++ natToString L ++ "] in script"] :=
  runtime_error_reporting 10 VmState.new ⟨[8, 2, 0], [], [1, 1, 1]⟩
    ⟨⟨[8, 2, 0], [], [1, 1, 1]⟩, 2, [.bool true], .empty, [], [],
     ["Operand must be a number.", "[line 1] in script"]⟩ (by decide)

theorem runFuel_failure_prefix :
    ∀ (fuel : ℕ) (s s' : VmState), runFuel fuel s = some (.failure, s') →
      ∃ sPre, Relation.ReflTransGen StepNext s sPre ∧
        step sPre = some (.fail s') ∧ s'.globals = sPre.globals := by
  intro fuel
  induction fuel with
  | zero => intro s s' h; cases h
  | succ fuel ih =>
    intro s s' h
    rw [runFuel] at h
    cases hstep : step s with
    | none => rw [hstep] at h; cases h
    | some st =>
      rw [hstep] at h
      cases st with
      | done s2 => simp at h
      | fail s2 =>
        simp only [Option.some.injEq, Prod.mk.injEq] at h
        obtain ⟨-, rfl⟩ := h
        have hf : FailFrame s s2 := step_frame hstep
        exact ⟨s, Relation.ReflTransGen.refl, hstep, hf.2.1⟩
      | next s2 =>
        obtain ⟨sPre, hseq, hst, hg⟩ := ih s2 s' h
        exact ⟨sPre, Relation.ReflTransGen.head hstep hseq, hst, hg⟩

/-- C10: when interpretation ends in a runtime error, the run is a sequence
of successful steps from the installed chunk to some state `sPre`, the
failing instruction leaves the globals table exactly as `sPre` (the executed
prefix) built it — so every global written before the failure keeps its
last-written value; nothing rolls back or clears the table — every binding
of the prefix is still readable afterwards, and a subsequent `interpret`
call on the same VM starts with those same globals. -/
theorem globals_survive_runtime_error (fuel : ℕ) (vm : VmState) (c : Chunk)
    (s' : VmState) (h : interpret fuel vm c = some (.failure, s')) :
    ∃ sPre, Relation.ReflTransGen StepNext (interpretSetup vm c) sPre ∧
      step sPre = some (.fail s') ∧ s'.globals = sPre.globals ∧
      (∀ name w, gLookup sPre.globals name = some w →
        gLookup s'.globals name = some w) ∧
      (∀ c2, (interpretSetup s' c2).globals = s'.globals) := by
  obtain ⟨sPre, hseq, hst, hg⟩ :=
    runFuel_failure_prefix fuel (interpretSetup vm c) s' h
  exact ⟨sPre, hseq, hst, hg, fun name w hw => by rw [hg]; exact hw, fun c2 => rfl⟩

/-- Witness for C10 at a concrete input: after `DefineGlobal x = 1` and a
subsequent runtime error, `x` is still bound to `1`. -/
theorem globals_survive_runtime_error_witness :
    (∃ sPre, Relation.ReflTransGen StepNext
        (interpretSetup VmState.new defineThenFailChunk) sPre ∧
      step sPre = some (.fail
        ⟨defineThenFailChunk, 6, [.bool true], .empty,
         [("x", .number (.fin ⟨1, 1⟩))], [],
         ["Operand must be a number.", "[line 1] in script"]⟩) ∧
      (⟨defineThenFailChunk, 6, [.bool true], .empty,
        [("x", .number (.fin ⟨1, 1⟩))], [],
        ["Operand must be a number.", "[line 1] in script"]⟩ : VmState).globals =
        sPre.globals ∧
      (∀ name w, gLookup sPre.globals name = some w →
        gLookup (⟨defineThenFailChunk, 6, [.bool true], .empty,
          [("x", .number (.fin ⟨1, 1⟩))], [],
          ["Operand must be a number.", "[line 1] in script"]⟩ : VmState).globals
          name = some w) ∧
      (∀ c2, (interpretSetup
        ⟨defineThenFailChunk, 6, [.bool true], .empty,
         [("x", .number (.fin ⟨1, 1⟩))], [],
         ["Operand must be a number.", "[line 1] in script"]⟩ c2).globals =
        (⟨defineThenFailChunk, 6, [.bool true], .empty,
          [("x", .number (.fin ⟨1, 1⟩))], [],
          ["Operand must be a number.", "[line 1] in script"]⟩ : VmState).globals)) ∧
    gLookup [("x", Value.number (.fin ⟨1, 1⟩))] "x" = some (.number (.fin ⟨1, 1⟩)) :=
  ⟨globals_survive_runtime_error 10 VmState.new defineThenFailChunk
    ⟨defineThenFailChunk, 6, [.bool true], .empty,
     [("x", .number (.fin ⟨1, 1⟩))], [],
     ["Operand must be a number.", "[line 1] in script"]⟩ (by decide),
   by decide⟩

theorem c7s3_prev : c7s3.previous = some ⟨.number, "1", 1⟩ := by decide

theorem c7s4_cur : c7s4.current = some ⟨.plus, "+", 1⟩ := by decide

theorem c7s5_prev : c7s5.previous = some ⟨.plus, "+", 1⟩ := by decide

theorem c7s6_prev : c7s6.previous = some ⟨.number, "2", 1⟩ := by decide

theorem c7s7_cur : c7s7.current = some ⟨.star, "*", 1⟩ := by decide

theorem c7s8_prev : c7s8.previous = some ⟨.star, "*", 1⟩ := by decide

theorem c7s14_panic : c7s14.panic_mode = false := by decide

theorem c7s16_err : c7s16.had_error = false := by decide

theorem c7ple1 : Precedence.ple .factor .assignment = false := by decide

theorem c7ple2 : Precedence.ple .assignment .assignment = true := by decide

theorem c7ple3 : Precedence.ple .assignment .term = true := by decide

theorem c7ple4 : Precedence.ple .factor .factor = true := by decide

theorem c7L1 : advance 200 c7s0 = some c7s1 := by decide

theorem c7L2 : matchToken 199 c7s1 .eof = some (false, c7s1) := by decide

theorem c7L3 : matchToken 198 c7s1 .kwVar = some (false, c7s1) := by decide

theorem c7L4 : matchToken 197 c7s1 .kwPrint = some (true, c7s2) := by decide

theorem c7L5 : advance 194 c7s2 = some c7s3 := by decide

theorem c7L6 : runParseFn 194 .number c7s3 true = some c7s4 := by decide

theorem c7L7 : advance 193 c7s4 = some c7s5 := by decide

theorem c7L8 : advance 190 c7s5 = some c7s6 := by decide

theorem c7L9 : runParseFn 190 .number c7s6 false = some c7s7 := by decide

theorem c7L10 : advance 189 c7s7 = some c7s8 := by decide

theorem c7L11 : parse_precedence 187 c7s8 .unary = some c7s10 := by decide

theorem c7L12 : c7s10.emit_opcode .multiply = some c7s11 := by decide

theorem c7L13 : infixLoop 189 c7s11 .factor false = some c7s11 := by decide

theorem c7L14 : c7s11.emit_opcode .add = some c7s12 := by decide

theorem c7L15 : infixLoop 193 c7s12 .assignment true = some c7s12 := by decide

theorem c7L16 : matchToken 194 c7s12 .equal = some (false, c7s12) := by decide

theorem c7L17 : consume 196 c7s12 .semicolon "Expect ';' after value." = some c7s13 := by
  decide

theorem c7L18 : c7s13.emit_opcode .print = some c7s14 := by decide

theorem c7L19 : matchToken 198 c7s14 .eof = some (true, c7s15) := by decide

theorem c7L20 : c7s15.emit_return = some c7s16 := by decide

theorem c7I : interpret 200 { VmState.new with strings := c7s16.vmStrings }
    c7s16.compiling_chunk = some (.ok, c7vmEnd) := by decide

theorem c7G1 : binaryFn 188 c7s8 = some c7s11 := by
  rw [show (188 : ℕ) = 187 + 1 from rfl, binaryFn]
  simp only [c7s8_prev, Option.pure_def, Option.bind_eq_bind, Option.some_bind, get_parse_rule,
             Precedence.higher, Precedence.toU8, Precedence.fromU8, c7L11, c7L12]

theorem c7R189 : runParseFn 189 .binary c7s8 false = some c7s11 := by
  rw [show (189 : ℕ) = 188 + 1 from rfl, runParseFn]
  exact c7G1

theorem c7G2 : infixLoop 190 c7s7 .factor false = some c7s11 := by
  rw [show (190 : ℕ) = 189 + 1 from rfl, infixLoop]
  simp only [c7s7_cur, Option.pure_def, Option.bind_eq_bind, Option.some_bind, get_parse_rule,
             c7ple4, if_true, c7L10, c7s8_prev, c7R189, c7L13]

theorem c7G3 : parse_precedence 191 c7s5 .factor = some c7s11 := by
  rw [show (191 : ℕ) = 190 + 1 from rfl, parse_precedence]
  simp only [c7L8, Option.pure_def, Option.bind_eq_bind, Option.some_bind, c7s6_prev,
             get_parse_rule, c7ple1, c7L9, c7G2, Bool.false_eq_true, if_false]

theorem c7G4 : binaryFn 192 c7s5 = some c7s12 := by
  rw [show (192 : ℕ) = 191 + 1 from rfl, binaryFn]
  simp only [c7s5_prev, Option.pure_def, Option.bind_eq_bind, Option.some_bind, get_parse_rule,
             Precedence.higher, Precedence.toU8, Precedence.fromU8, c7G3, c7L14]

theorem c7R193 : runParseFn 193 .binary c7s5 true = some c7s12 := by
  rw [show (193 : ℕ) = 192 + 1 from rfl, runParseFn]
  exact c7G4

theorem c7G5 : infixLoop 194 c7s4 .assignment true = some c7s12 := by
  rw [show (194 : ℕ) = 193 + 1 from rfl, infixLoop]
  simp only [c7s4_cur, Option.pure_def, Option.bind_eq_bind, Option.some_bind, get_parse_rule,
             c7ple3, if_true, c7L7, c7s5_prev, c7R193, c7L15]

theorem c7G6 : parse_precedence 195 c7s2 .assignment = some c7s12 := by
  rw [show (195 : ℕ) = 194 + 1 from rfl, parse_precedence]
  simp only [c7L5, Option.pure_def, Option.bind_eq_bind, Option.some_bind, c7s3_prev,
             get_parse_rule, c7ple2, if_true, c7L6, c7G5, c7L16,
             Bool.false_eq_true, if_false]

theorem c7E : expression 196 c7s2 = some c7s12 := by
  rw [show (196 : ℕ) = 195 + 1 from rfl, expression]
  exact c7G6

theorem c7G7 : print_statement 197 c7s2 = some c7s14 := by
  rw [show (197 : ℕ) = 196 + 1 from rfl, print_statement]
  simp only [c7E, Option.pure_def, Option.bind_eq_bind, Option.some_bind, c7L17, c7L18]

theorem c7G8 : statement 198 c7s1 = some c7s14 := by
  rw [show (198 : ℕ) = 197 + 1 from rfl, statement]
  simp only [c7L4, Option.pure_def, Option.bind_eq_bind, Option.some_bind, if_true, c7G7]

theorem c7G9 : declaration 199 c7s1 = some c7s14 := by
  rw [show (199 : ℕ) = 198 + 1 from rfl, declaration]
  simp only [c7L3, Option.pure_def, Option.bind_eq_bind, Option.some_bind, Bool.false_eq_true,
             if_false, c7G8, c7s14_panic]

theorem c7G10a : compileLoop 199 c7s14 = some c7s15 := by
  rw [show (199 : ℕ) = 198 + 1 from rfl, compileLoop]
  simp only [c7L19, Option.pure_def, Option.bind_eq_bind, Option.some_bind, if_true]

theorem c7G10 : compileLoop 200 c7s1 = some c7s15 := by
  rw [show (200 : ℕ) = 199 + 1 from rfl, compileLoop]
  simp only [c7L2, Option.pure_def, Option.bind_eq_bind, Option.some_bind, Bool.false_eq_true,
             if_false, c7G9, c7G10a]

theorem c7G11 : compile 200 InternTable.empty src7 =
    some (.ok c7s16.compiling_chunk, c7s16.vmStrings, c7s16.cerr) := by
  rw [compile, show CompState.new InternTable.empty src7 = c7s0 from rfl]
  simp only [c7L1, Option.pure_def, Option.bind_eq_bind, Option.some_bind, c7G10, c7L20,
             c7s16_err, Bool.false_eq_true, if_false]

/-- C7: compiling and interpreting `print 1 + 2 * 3;` succeeds and prints
exactly `7` and a newline to standard output; in the parse-rule table `*`
and `/` sit at `Factor`, strictly above `+` and `-` at `Term`, and `binary`
parses its right operand at `higher` of the operator's precedence
(`Term.higher = Factor`, `Factor.higher = Unary`), which makes the binary
operators left-associative. -/
theorem print_one_plus_two_times_three :
    runSource 200 src7 = some (.ok (.ok, c7vmEnd)) ∧
    c7vmEnd.stdoutSink = ["7", "\n"] ∧
    src7 = "print 1 + 2 * 3;" ∧
    (get_parse_rule .star).prec = .factor ∧
    (get_parse_rule .slash).prec = .factor ∧
    (get_parse_rule .plus).prec = .term ∧
    (get_parse_rule .minus).prec = .term ∧
    Precedence.term.toU8 < Precedence.factor.toU8 ∧
    Precedence.term.higher = some .factor ∧
    Precedence.factor.higher = some .unary := by
  refine ⟨?_, by decide, rfl, rfl, rfl, rfl, rfl, by decide, by decide, by decide⟩
  rw [runSource, show VmState.new.strings = InternTable.empty from rfl]
  simp only [c7G11, Option.pure_def, Option.bind_eq_bind, Option.some_bind, c7I, Option.pure_def]

end Clox
